import Mathlib

/-!
sakimonoteguchi: incremental mirror of a daily dataset.

A shallow embedding of `main.go`.  Go strings are modelled by `String`
(the program only handles text that is valid UTF-8: source literals and the
output of `json.Unmarshal`), a `time.Time` produced by `time.Parse` with the
layout `2006-01-02` by its civil date, and the outside world (the upstream
site, the working directory, the file system faults, the platform) by an
explicit environment `Env`.  `log.Fatal` is modelled by an explicit fatal
outcome that stops the run.
-/

namespace Sakimono

set_option maxRecDepth 100000

/-! ## Dates: `time.Time`, `time.Parse` and `Time.Format` for the layout `2006-01-02` -/

/-- Civil date (UTC, midnight) of a `time.Time` value. -/
structure Time where
  year : Nat
  month : Nat
  day : Nat
deriving DecidableEq, Repr

/-- The zero value `time.Time{}`: January 1, year 1, 00:00:00 UTC. -/
def Time.zero : Time := ⟨1, 1, 1⟩

/-- Go `isDigit`: the byte is an ASCII decimal digit. -/
def isDigit (c : Char) : Bool := decide (48 ≤ c.toNat) && decide (c.toNat ≤ 57)

/-- Value of a decimal digit, `int(c - '0')`. -/
def digitVal (c : Char) : Nat := c.toNat - 48

/-- Go `isLeap`. -/
def isLeap (year : Nat) : Bool := year % 4 == 0 && (year % 100 != 0 || year % 400 == 0)

/-- Go `daysIn`: number of days of the month `m` (1 to 12) in `year`. -/
def daysIn (m year : Nat) : Nat :=
  if m == 2 && isLeap year then 29
  else [31, 28, 31, 30, 31, 30, 31, 31, 30, 31, 30, 31].getD (m - 1) 0

/-- The `2006` element of a layout: exactly four digits. -/
def parseLongYear : List Char → Option (Nat × List Char)
  | a :: b :: c :: d :: rest =>
    if isDigit a && isDigit b && isDigit c && isDigit d then
      some (digitVal a * 1000 + digitVal b * 100 + digitVal c * 10 + digitVal d, rest)
    else none
  | _ => none

/-- Go `getnum(s, fixed = true)`: exactly two digits (elements `01` and `02`). -/
def getnum : List Char → Option (Nat × List Char)
  | a :: b :: rest =>
    if isDigit a && isDigit b then some (digitVal a * 10 + digitVal b, rest) else none
  | _ => none

/-- Go `skip` for the literal `-` between two layout elements. -/
def skipHyphen : List Char → Option (List Char)
  | c :: rest => if c = '-' then some rest else none
  | [] => none

/-- Parsing of a value against the layout `2006-01-02`. -/
def parseLayout (value : List Char) : Option Time :=
  match parseLongYear value with
  | none => none
  | some (year, v1) =>
    match skipHyphen v1 with
    | none => none
    | some v2 =>
      match getnum v2 with
      | none => none
      | some (month, v3) =>
        if month = 0 ∨ 12 < month then none
        else
          match skipHyphen v3 with
          | none => none
          | some v4 =>
            match getnum v4 with
            | none => none
            | some (day, v5) =>
              if v5 ≠ [] then none
              else if day < 1 ∨ daysIn month year < day then none
              else some ⟨year, month, day⟩

/-- Go `time.Parse("2006-01-02", value)`. -/
def timeParse (value : String) : Except String Time :=
  match parseLayout value.data with
  | some t => .ok t
  | none => .error ("parsing time \"" ++ value ++ "\" as \"2006-01-02\"")

/-- Go `'0' + byte(u)`. -/
def utod (u : Nat) : Char := Char.ofNat (48 + u)

/-- Go `appendInt`: decimal form of `x`, padded with zeros to `width`. -/
def appendInt (x width : Nat) : List Char :=
  if width = 2 ∧ x < 100 then [utod (x / 10), utod (x % 10)]
  else if width = 4 ∧ x < 10000 then
    [utod (x / 1000), utod (x / 100 % 10), utod (x / 10 % 10), utod (x % 10)]
  else
    let ds := Nat.toDigits 10 x
    List.replicate (width - ds.length) '0' ++ ds

/-- Go `date.Format("2006-01-02")`. -/
def Time.Format (t : Time) : String :=
  String.mk (appendInt t.year 4 ++ '-' :: (appendInt t.month 2 ++ '-' :: appendInt t.day 2))


/-! ## Records and the outside world -/

/-- One record of a dataset (Go `Data`); every field is text. -/
structure Data where
  InfoDate : String
  Company : String
  N225Sell : String
  N225Buy : String
  N225Net : String
  TopixSell : String
  TopixBuy : String
  TopixNet : String
  NetTotal : String
deriving DecidableEq, Repr

/-- An HTTP response, reduced to what `ioutil.ReadAll(resp.Body)` returns. -/
structure Response where
  body : Except String String

/-- A file system entry. -/
inductive Node where
  | dir
  | file (content : List Nat)
deriving DecidableEq, Repr

/-- The file system: what `os.Stat` finds at each path. -/
abbrev FS := String → Option Node

/-- The file system with the entry at `path` replaced. -/
def FS.set (fs : FS) (path : String) (n : Node) : FS :=
  fun q => if q = path then some n else fs q

/-- Everything the program reads from outside: the upstream site, the
libraries whose tables are not part of the program, and the faults of the
operating system. -/
structure Env where
  /-- Result of `goquery.NewDocument(url)` followed by
  `Find("select[name='search_key'] option")`: an error, or for each matched
  element, in page order, its `value` attribute when it has one. -/
  listing : String → Except String (List (Option String))
  /-- Result of `http.PostForm(url, {file_name, search_key})`. -/
  postForm : String → String → String → Except String Response
  /-- Result of `json.Unmarshal(raw, &dataset)`. -/
  unmarshal : String → Except String (List Data)
  /-- Result of `os.Getwd()`. -/
  getwd : Except String String
  /-- Value of `runtime.GOOS`. -/
  goos : String
  /-- Error of `os.Mkdir(path, 0755)` caused by the system, if any. -/
  mkdirErr : String → Option String
  /-- Error of `os.Create(path)` caused by the system, if any. -/
  createErr : String → Option String
  /-- Write fault on the file at `path`: `some k` when the device accepts only
  the first `k` bytes and then fails. -/
  writeErr : String → Option Nat
  /-- Code table of `japanese.ShiftJIS`: the bytes of a character, when it has
  a code. -/
  shiftJIS : Char → Option (List Nat)

/-- What the program does to the outside, in order. -/
inductive Event where
  | println (line : String)
  | sleep (ms : Nat)
  | postForm (url fileName searchKey : String)
  | mkdir (path : String)
  | create (path : String)
  | write (path : String) (bytes : List Nat)
  | fatal (msg : String)
deriving DecidableEq, Repr

/-- State of a run: the file system it leaves, the events it performed, and
the message of `log.Fatal` when the run was stopped by it. -/
structure Run where
  fs : FS
  trace : List Event
  err : Option String

/-! ## The program -/

/-- Go `isFileExist`: `os.Stat` succeeds. -/
def isFileExist (fs : FS) (filename : String) : Bool := (fs filename).isSome

/-- Go `getDates`: one date per matched option, the zero time when the value
is missing or does not parse (both results are discarded with `_`). -/
def getDates (env : Env) : Except String (List Time) :=
  let indexURL := "http://j2funds.info/invest/contents/futures/daily.php"
  match env.listing indexURL with
  | .error e => .error e
  | .ok options =>
    .ok (options.map fun s =>
      let dateString := s.getD ""
      match timeParse dateString with
      | .ok date => date
      | .error _ => Time.zero)

/-- Go `dataDir`. -/
def dataDir (env : Env) : Except String String :=
  match env.getwd with
  | .error e => .error e
  | .ok pwd => .ok (pwd ++ "/data")

/-- Go `dataFileName`. -/
def dataFileName (date : Time) : String :=
  let dateString := date.Format
  dateString ++ ".csv"

/-- Go `dataFilePath`. -/
def dataFilePath (env : Env) (date : Time) : Except String String :=
  let fileName := dataFileName date
  match dataDir env with
  | .error e => .error e
  | .ok dir => .ok (dir ++ "/" ++ fileName)

/-- Go `isDataFileExist`. -/
def isDataFileExist (env : Env) (fs : FS) (date : Time) : Except String Bool :=
  match dataFilePath env date with
  | .error e => .error e
  | .ok path => .ok (isFileExist fs path)

/-- Go `getData`: the request it sends and the dataset or the fatal error. -/
def getData (env : Env) (date : Time) : List Event × Except String (List Data) :=
  let dataURL := "http://j2funds.info/invest/func/futures/_get_futures_daily_data.php"
  let call := Event.postForm dataURL "daily.php" date.Format
  match env.postForm dataURL "daily.php" date.Format with
  | .error e => ([call], .error e)
  | .ok resp =>
    match resp.body with
    | .error e => ([call], .error e)
    | .ok raw =>
      match env.unmarshal raw with
      | .error e => ([call], .error e)
      | .ok dataset => ([call], .ok dataset)

/-! ### `encoding/csv` writer -/

/-- Go `unicode.IsSpace`. -/
def isSpace (r : Char) : Bool :=
  let v := r.toNat
  (9 ≤ v && v ≤ 13) || v == 0x20 || v == 0x85 || v == 0xA0 || v == 0x1680 ||
    (0x2000 ≤ v && v ≤ 0x200A) || v == 0x2028 || v == 0x2029 || v == 0x202F ||
    v == 0x205F || v == 0x3000

/-- Go `(*csv.Writer).fieldNeedsQuotes` with the comma as delimiter. -/
def fieldNeedsQuotes (field : List Char) : Bool :=
  match field with
  | [] => false
  | r1 :: _ =>
    field == ['\\', '.'] ||
      field.any (fun c => c == '\n' || c == '\r' || c == '"' || c == ',') ||
      isSpace r1

/-- Body of a quoted field: every quote is doubled, the rest is copied
(`UseCRLF` is false). -/
def quoteBody : List Char → List Char
  | [] => []
  | c :: cs => if c = '"' then '"' :: '"' :: quoteBody cs else c :: quoteBody cs

/-- One field as `(*csv.Writer).Write` emits it. -/
def writeField (field : List Char) : List Char :=
  if fieldNeedsQuotes field then '"' :: (quoteBody field ++ ['"']) else field

/-- The fields of a record separated by commas. -/
def writeFields : List String → List Char
  | [] => []
  | [f] => writeField f.data
  | f :: g :: fs => writeField f.data ++ ',' :: writeFields (g :: fs)

/-- Go `(*csv.Writer).Write(record)`: the line of one record. -/
def csvWrite (record : List String) : List Char := writeFields record ++ ['\n']

/-- The header row of `saveDatasetAsCsv`. -/
def header : List String :=
  ["証券会社名", "n225_sell", "n225_buy", "n225_net", "topix_sell", "topix_buy",
    "topix_net", "net_total"]

/-- The record `saveDatasetAsCsv` builds from one `Data`. -/
def recordOf (data : Data) : List String :=
  [data.Company, data.N225Sell, data.N225Buy, data.N225Net, data.TopixSell,
    data.TopixBuy, data.TopixNet, data.NetTotal]

/-- The rows `saveDatasetAsCsv` hands to the writer, in order. -/
def csvRows (dataset : List Data) : List (List String) :=
  header :: dataset.map recordOf

/-- The text the CSV writer produces for a dataset. -/
def csvText (dataset : List Data) : List Char :=
  ((csvRows dataset).map csvWrite).flatten

/-! ### Encodings of the output stream -/

/-- The UTF-8 bytes of a character (the bytes a Go string holds for it). -/
def utf8EncodeChar (c : Char) : List Nat :=
  let v := c.toNat
  if v < 0x80 then [v]
  else if v < 0x800 then [0xC0 + v / 64, 0x80 + v % 64]
  else if v < 0x10000 then [0xE0 + v / 4096, 0x80 + v / 64 % 64, 0x80 + v % 64]
  else [0xF0 + v / 262144, 0x80 + v / 4096 % 64, 0x80 + v / 64 % 64, 0x80 + v % 64]

/-- The UTF-8 bytes of a text. -/
def utf8Encode (text : List Char) : List Nat := (text.map utf8EncodeChar).flatten

/-- The stream `transform.NewWriter(f, japanese.ShiftJIS.NewEncoder())` lets
through: the code of each character in turn; at a character without a code
the encoder reports an error, which the program does not look at, and nothing
more reaches the file. -/
def shiftJISEncode (table : Char → Option (List Nat)) : List Char → List Nat
  | [] => []
  | c :: cs =>
    match table c with
    | some code => code ++ shiftJISEncode table cs
    | none => []

/-- Go `os.Create`: the file is created or truncated. -/
def osCreate (env : Env) (fs : FS) (path : String) : Except String FS :=
  match env.createErr path with
  | some e => .error e
  | none =>
    match fs path with
    | some Node.dir => .error ("open " ++ path ++ ": is a directory")
    | _ => .ok (fs.set path (Node.file []))

/-- The bytes the writer of `saveDatasetAsCsv` sends towards the file: chosen
once by the platform, Shift-JIS on windows and the text itself otherwise. -/
def outputStream (env : Env) (dataset : List Data) : List Nat :=
  if env.goos = "windows" then shiftJISEncode env.shiftJIS (csvText dataset)
  else utf8Encode (csvText dataset)

/-- The bytes that reach the file at `filePath`: all of the stream, or the
part the device accepted before its fault. -/
def writtenBytes (env : Env) (dataset : List Data) (filePath : String) : List Nat :=
  match env.writeErr filePath with
  | none => outputStream env dataset
  | some k => (outputStream env dataset).take k

/-- Go `saveDatasetAsCsv`.  The results of `w.Write` are not looked at and the
deferred `w.Flush()` reports nothing, so a write fault only shortens the
file. -/
def saveDatasetAsCsv (env : Env) (fs : FS) (dataset : List Data) (filePath : String) :
    FS × List Event × Except String Unit :=
  match osCreate env fs filePath with
  | .error e => (fs, [], .error e)
  | .ok fs1 =>
    let written := writtenBytes env dataset filePath
    (fs1.set filePath (Node.file written),
      [Event.create filePath, Event.write filePath written], .ok ())

/-- The `for _, date := range dates` loop of `main`. -/
def mainLoop (env : Env) : FS → List Time → Run
  | fs, [] => ⟨fs, [], none⟩
  | fs, date :: rest =>
    let fileName := dataFileName date
    match dataFilePath env date with
    | .error e => ⟨fs, [Event.fatal e], some e⟩
    | .ok filePath =>
      match isDataFileExist env fs date with
      | .error e => ⟨fs, [Event.fatal e], some e⟩
      | .ok true =>
        let r := mainLoop env fs rest
        ⟨r.fs, Event.println (fileName ++ " already exists. skip it.") :: r.trace, r.err⟩
      | .ok false =>
        let fetched := getData env date
        match fetched.2 with
        | .error e => ⟨fs, Event.sleep 2000 :: (fetched.1 ++ [Event.fatal e]), some e⟩
        | .ok dataset =>
          let saved := saveDatasetAsCsv env fs dataset filePath
          match saved.2.2 with
          | .error e =>
            ⟨saved.1, Event.sleep 2000 :: (fetched.1 ++ (saved.2.1 ++ [Event.fatal e])), some e⟩
          | .ok _ =>
            let r := mainLoop env saved.1 rest
            ⟨r.fs,
              Event.sleep 2000 ::
                (fetched.1 ++ (saved.2.1 ++ Event.println (fileName ++ " saved.") :: r.trace)),
              r.err⟩

/-- Go `os.Mkdir`. -/
def osMkdir (env : Env) (fs : FS) (path : String) : Except String FS :=
  match env.mkdirErr path with
  | some e => .error e
  | none =>
    match fs path with
    | some _ => .error ("mkdir " ++ path ++ ": file exists")
    | none => .ok (fs.set path Node.dir)

/-- The action of `main`. -/
def main (env : Env) (fs : FS) : Run :=
  match dataDir env with
  | .error e => ⟨fs, [Event.fatal e], some e⟩
  | .ok dir =>
    let made : Except String (FS × List Event) :=
      if !isFileExist fs dir then
        match osMkdir env fs dir with
        | .error e => .error e
        | .ok fs1 =>
          .ok (fs1, [Event.println ("Data dir doesn't exist. create: " ++ dir), Event.mkdir dir])
      else .ok (fs, [])
    match made with
    | .error e =>
      ⟨fs, [Event.println ("Data dir doesn't exist. create: " ++ dir), Event.fatal e], some e⟩
    | .ok (fs1, t1) =>
      match getDates env with
      | .error e => ⟨fs1, t1 ++ [Event.fatal e], some e⟩
      | .ok dates =>
        let r := mainLoop env fs1 dates
        ⟨r.fs, t1 ++ r.trace, r.err⟩

/-- A concrete environment: a listing of three options, a dataset for each
date, no system fault, not windows. -/
def demoEnv : Env where
  listing := fun _ => .ok [some "2021-05-03", some "2021-05-04", some "2021-05-03"]
  postForm := fun _ _ key => .ok ⟨.ok key⟩
  unmarshal := fun raw => .ok [⟨raw, "A社", "1", "2", "3", "4", "5", "6", "7"⟩]
  getwd := .ok "/w"
  goos := "linux"
  mkdirErr := fun _ => none
  createErr := fun _ => none
  writeErr := fun _ => none
  shiftJIS := fun c => if c.toNat < 128 then some [c.toNat] else none

/-- A file system holding the data directory and the archive file of 2021-05-03. -/
def demoFS : FS := fun p =>
  if p = "/w/data" then some Node.dir
  else if p = "/w/data/2021-05-03.csv" then some (Node.file [])
  else none

/-! ## Reading a trace -/

/-- The event is a call of `getData` (its POST request). -/
def isFetch : Event → Bool
  | Event.postForm _ _ _ => true
  | _ => false

/-- The event is a sleep. -/
def isSleep : Event → Bool
  | Event.sleep _ => true
  | _ => false

/-- The event creates or writes a file. -/
def isFileWrite : Event → Bool
  | Event.create _ => true
  | Event.write _ _ => true
  | _ => false

/-- Duration of the event in milliseconds, as far as the program asks for it. -/
def sleepMs : Event → Nat
  | Event.sleep ms => ms
  | _ => 0

/-- Number of calls of `getData` in a trace. -/
def fetchCount (trace : List Event) : Nat := trace.countP isFetch

/-- Number of sleeps in a trace. -/
def sleepCount (trace : List Event) : Nat := trace.countP isSleep

/-- Effect of one event on the file system. -/
def applyEvent (fs : FS) : Event → FS
  | Event.mkdir path => fs.set path Node.dir
  | Event.create path => fs.set path (Node.file [])
  | Event.write path bytes => fs.set path (Node.file bytes)
  | _ => fs

/-- The file system after the events of a trace. -/
def replay (fs : FS) (trace : List Event) : FS := trace.foldl applyEvent fs

/-- Total sleep of the events that have a call of `getData` later in the trace. -/
def sleepBeforeLastFetch : List Event → Nat
  | [] => 0
  | e :: t => (if t.any isFetch then sleepMs e else 0) + sleepBeforeLastFetch t

/-- Total sleep, in milliseconds, between the first and the last call of
`getData` of a trace. -/
def sleepBetweenFetches : List Event → Nat
  | [] => 0
  | e :: t => if isFetch e then sleepBeforeLastFetch t else sleepBetweenFetches t

/-- Path of the archive file of `date` when the working directory is `pwd`. -/
def archivePath (pwd : String) (date : Time) : String :=
  pwd ++ "/data" ++ "/" ++ dataFileName date

/-- The dates `time.Parse` can return for the layout `2006-01-02`, and the
zero time: four-digit year, two-digit month and day. -/
def Time.inLayout (t : Time) : Prop := t.year < 10000 ∧ t.month < 100 ∧ t.day < 100

/-- The request `getData` sends for a date. -/
def fetchOf (date : Time) : Event :=
  Event.postForm "http://j2funds.info/invest/func/futures/_get_futures_daily_data.php"
    "daily.php" date.Format

/-- The dates of the listing of `demoEnv`: 2021-05-03 twice, 2021-05-04 once. -/
def demoDates : List Time := [⟨2021, 5, 3⟩, ⟨2021, 5, 4⟩, ⟨2021, 5, 3⟩]

/-- An environment like `demoEnv` whose upstream refuses the request for
2021-05-04. -/
def brokenEnv : Env :=
  { demoEnv with
    postForm := fun _ _ key =>
      if key = "2021-05-04" then .error "connection refused" else .ok ⟨.ok key⟩ }

/-! ## Reading CSV text back -/

/-- Where a reader of CSV text stands inside a record. -/
inductive ReadMode where
  | fieldStart
  | bare
  | quoted
  | quoteSeen
  | malformed
deriving DecidableEq, Repr

/-- State of a reader of CSV text: the rows and fields completed so far, the
characters of the field being read, and the mode. -/
structure Reader where
  rows : List (List String)
  fields : List String
  cur : List Char
  mode : ReadMode

/-- The field being read is complete. -/
def Reader.endField (r : Reader) : Reader :=
  ⟨r.rows, r.fields ++ [String.mk r.cur], [], ReadMode.fieldStart⟩

/-- The record being read is complete. -/
def Reader.endRecord (r : Reader) : Reader :=
  ⟨r.rows ++ [r.fields ++ [String.mk r.cur]], [], [], ReadMode.fieldStart⟩

/-- One character of CSV text (RFC 4180, records ended by a line feed): a
comma ends a field, a line feed ends a record, a field that starts with a
quote runs to its closing quote, and a doubled quote inside it stands for one
quote. -/
def Reader.step (r : Reader) (c : Char) : Reader :=
  match r.mode with
  | ReadMode.fieldStart =>
    if c = '"' then { r with mode := ReadMode.quoted }
    else if c = ',' then r.endField
    else if c = '\n' then r.endRecord
    else { r with cur := [c], mode := ReadMode.bare }
  | ReadMode.bare =>
    if c = ',' then r.endField
    else if c = '\n' then r.endRecord
    else if c = '"' then { r with mode := ReadMode.malformed }
    else { r with cur := r.cur ++ [c] }
  | ReadMode.quoted =>
    if c = '"' then { r with mode := ReadMode.quoteSeen }
    else { r with cur := r.cur ++ [c] }
  | ReadMode.quoteSeen =>
    if c = '"' then { r with cur := r.cur ++ ['"'], mode := ReadMode.quoted }
    else if c = ',' then r.endField
    else if c = '\n' then r.endRecord
    else { r with mode := ReadMode.malformed }
  | ReadMode.malformed => r

/-- The rows of a CSV text, when it is well formed. -/
def csvRead (text : List Char) : Option (List (List String)) :=
  let r := text.foldl Reader.step ⟨[], [], [], ReadMode.fieldStart⟩
  match r.mode with
  | ReadMode.fieldStart => if r.fields = [] then some r.rows else some (r.endRecord).rows
  | ReadMode.bare => some (r.endRecord).rows
  | ReadMode.quoteSeen => some (r.endRecord).rows
  | ReadMode.quoted => none
  | ReadMode.malformed => none


/-- A mode in which a comma or a line feed ends the field read so far. -/
def ReadMode.fieldEnd (m : ReadMode) (f : List Char) : Prop :=
  m = ReadMode.bare ∨ m = ReadMode.quoteSeen ∨ (m = ReadMode.fieldStart ∧ f = [])

/-- The byte continues a multi-byte UTF-8 sequence. -/
def isCont (b : Nat) : Bool := decide (0x80 ≤ b) && decide (b < 0xC0)

/-- Decoding of UTF-8 bytes into text, as Go `utf8.DecodeRune` accepts them:
shortest form only, no surrogate halves, nothing above U+10FFFF. -/
def utf8Decode : List Nat → Option (List Char)
  | [] => some []
  | b0 :: rest =>
    if b0 < 0x80 then (utf8Decode rest).map (fun cs => Char.ofNat b0 :: cs)
    else if 0xC2 ≤ b0 ∧ b0 < 0xE0 then
      match rest with
      | b1 :: rest1 =>
        if isCont b1 then
          (utf8Decode rest1).map (fun cs => Char.ofNat ((b0 - 0xC0) * 64 + (b1 - 0x80)) :: cs)
        else none
      | _ => none
    else if 0xE0 ≤ b0 ∧ b0 < 0xF0 then
      match rest with
      | b1 :: b2 :: rest2 =>
        let v := (b0 - 0xE0) * 4096 + (b1 - 0x80) * 64 + (b2 - 0x80)
        if isCont b1 ∧ isCont b2 ∧ 0x800 ≤ v ∧ ¬(0xD800 ≤ v ∧ v ≤ 0xDFFF) then
          (utf8Decode rest2).map (fun cs => Char.ofNat v :: cs)
        else none
      | _ => none
    else if 0xF0 ≤ b0 ∧ b0 < 0xF5 then
      match rest with
      | b1 :: b2 :: b3 :: rest3 =>
        let v := (b0 - 0xF0) * 262144 + (b1 - 0x80) * 4096 + (b2 - 0x80) * 64 + (b3 - 0x80)
        if isCont b1 ∧ isCont b2 ∧ isCont b3 ∧ 0x10000 ≤ v ∧ v ≤ 0x10FFFF then
          (utf8Decode rest3).map (fun cs => Char.ofNat v :: cs)
        else none
      | _ => none
    else none


/-- The Shift-JIS transcoding of a text: the codes of its characters in
order, when every character has a code. -/
def shiftJISCodes (table : Char → Option (List Nat)) : List Char → Option (List Nat)
  | [] => some []
  | c :: cs =>
    match table c, shiftJISCodes table cs with
    | some code, some rest => some (code ++ rest)
    | _, _ => none

/-- A part of the Shift-JIS code table: ASCII and the five kanji of the
header. -/
def demoShiftJIS (c : Char) : Option (List Nat) :=
  if c.toNat < 128 then some [c.toNat]
  else if c = '証' then some [0x8F, 0xD8]
  else if c = '券' then some [0x8C, 0x94]
  else if c = '会' then some [0x89, 0xEF]
  else if c = '社' then some [0x8E, 0xD0]
  else if c = '名' then some [0x96, 0xBC]
  else none

/-- The environment `demoEnv` on windows. -/
def windowsEnv : Env := { demoEnv with goos := "windows", shiftJIS := demoShiftJIS }

/-- The environment `demoEnv` with a device that accepts no byte. -/
def fullDiskEnv : Env := { demoEnv with writeErr := fun _ => some 0 }

/-- The environment `demoEnv` with a listing page without any option. -/
def noOptionEnv : Env := { demoEnv with listing := fun _ => .ok [] }

/-- The environment `demoEnv` with a listing page whose options have no value
or a value that is not a date. -/
def badOptionEnv : Env := { demoEnv with listing := fun _ => .ok [none, some "latest"] }

/-- The header line in Shift-JIS. -/
def headerShiftJIS : List Nat :=
  [143, 216, 140, 148, 137, 239, 142, 208, 150, 188, 44, 110, 50, 50, 53, 95, 115, 101, 108,
    108, 44, 110, 50, 50, 53, 95, 98, 117, 121, 44, 110, 50, 50, 53, 95, 110, 101, 116, 44, 116,
    111, 112, 105, 120, 95, 115, 101, 108, 108, 44, 116, 111, 112, 105, 120, 95, 98, 117, 121,
    44, 116, 111, 112, 105, 120, 95, 110, 101, 116, 44, 110, 101, 116, 95, 116, 111, 116, 97,
    108, 10]

/-- The header line in UTF-8. -/
def headerUTF8 : List Nat :=
  [232, 168, 188, 229, 136, 184, 228, 188, 154, 231, 164, 190, 229, 144, 141, 44, 110, 50, 50,
    53, 95, 115, 101, 108, 108, 44, 110, 50, 50, 53, 95, 98, 117, 121, 44, 110, 50, 50, 53, 95,
    110, 101, 116, 44, 116, 111, 112, 105, 120, 95, 115, 101, 108, 108, 44, 116, 111, 112, 105,
    120, 95, 98, 117, 121, 44, 116, 111, 112, 105, 120, 95, 110, 101, 116, 44, 110, 101, 116,
    95, 116, 111, 116, 97, 108, 10]

/-- A record whose text holds commas, quotes and line breaks. -/
def trickyData : Data :=
  ⟨"2021-05-04", "A, \"B\" 社", "1\n2", "", "\"", ",", "\\.", " x", "\r\n"⟩

/-! ## Dates: parsing and formatting are inverse -/

theorem toNat_ofNat_valid (n : Nat) (hv : n.isValidChar) : (Char.ofNat n).toNat = n := by
  simp only [Char.ofNat, hv, dite_true, Char.ofNatAux, Char.toNat]
  rfl

theorem isDigit_iff (c : Char) : isDigit c = true ↔ 48 ≤ c.toNat ∧ c.toNat ≤ 57 := by
  simp [isDigit]

theorem utod_digitVal (c : Char) (h : isDigit c = true) : utod (digitVal c) = c := by
  rw [isDigit_iff] at h
  unfold utod digitVal
  have : 48 + (c.toNat - 48) = c.toNat := by omega
  rw [this, Char.ofNat_toNat]

theorem digitVal_lt (c : Char) (h : isDigit c = true) : digitVal c < 10 := by
  rw [isDigit_iff] at h
  unfold digitVal
  omega

theorem toNat_utod (x : Nat) (h : x < 10) : (utod x).toNat = 48 + x := by
  unfold utod
  exact toNat_ofNat_valid _ (Or.inl (by omega))

theorem isDigit_utod (x : Nat) (h : x < 10) : isDigit (utod x) = true := by
  rw [isDigit_iff, toNat_utod x h]; omega

theorem digitVal_utod (x : Nat) (h : x < 10) : digitVal (utod x) = x := by
  unfold digitVal; rw [toNat_utod x h]; omega

theorem parseLongYear_some (v r : List Char) (y : Nat) (h : parseLongYear v = some (y, r)) :
    y < 10000 ∧ v = appendInt y 4 ++ r := by
  rcases v with _ | ⟨a, _ | ⟨b, _ | ⟨c, _ | ⟨d, v1⟩⟩⟩⟩ <;> simp [parseLongYear] at h
  obtain ⟨⟨⟨⟨ha, hb⟩, hc⟩, hd⟩, hy, hr⟩ := h
  have la := digitVal_lt a ha
  have lb := digitVal_lt b hb
  have lc := digitVal_lt c hc
  have ld := digitVal_lt d hd
  subst hr
  have hy4 : y < 10000 := by omega
  refine ⟨hy4, ?_⟩
  have e1 : y / 1000 = digitVal a := by omega
  have e2 : y / 100 % 10 = digitVal b := by omega
  have e3 : y / 10 % 10 = digitVal c := by omega
  have e4 : y % 10 = digitVal d := by omega
  simp [appendInt, hy4, e1, e2, e3, e4, utod_digitVal, ha, hb, hc, hd]

theorem getnum_some (v r : List Char) (n : Nat) (h : getnum v = some (n, r)) :
    n < 100 ∧ v = appendInt n 2 ++ r := by
  rcases v with _ | ⟨a, _ | ⟨b, v1⟩⟩ <;> simp [getnum] at h
  obtain ⟨⟨ha, hb⟩, hn, hr⟩ := h
  have la := digitVal_lt a ha
  have lb := digitVal_lt b hb
  subst hr
  have hn2 : n < 100 := by omega
  refine ⟨hn2, ?_⟩
  have e1 : n / 10 = digitVal a := by omega
  have e2 : n % 10 = digitVal b := by omega
  simp [appendInt, hn2, e1, e2, utod_digitVal, ha, hb]

theorem skipHyphen_some (v r : List Char) (h : skipHyphen v = some r) : v = '-' :: r := by
  rcases v with _ | ⟨c, v1⟩ <;> simp [skipHyphen] at h
  obtain ⟨hc, hr⟩ := h
  subst hc hr
  rfl

theorem parseLayout_some (v : List Char) (t : Time) (h : parseLayout v = some t) :
    v = appendInt t.year 4 ++ '-' :: (appendInt t.month 2 ++ '-' :: appendInt t.day 2) ∧
      t.year < 10000 ∧ 1 ≤ t.month ∧ t.month ≤ 12 ∧ 1 ≤ t.day ∧ t.day ≤ daysIn t.month t.year := by
  unfold parseLayout at h
  split at h
  · simp at h
  · rename_i year v1 hy
    split at h
    · simp at h
    · rename_i v2 h1
      split at h
      · simp at h
      · rename_i month v3 hm
        split at h
        · simp at h
        · rename_i hmr
          split at h
          · simp at h
          · rename_i v4 h2
            split at h
            · simp at h
            · rename_i day v5 hd
              split at h
              · simp at h
              · rename_i hv5
                split at h
                · simp at h
                · rename_i hdr
                  simp at h
                  subst h
                  simp at hv5
                  subst hv5
                  obtain ⟨hy1, hy2⟩ := parseLongYear_some _ _ _ hy
                  obtain ⟨hm1, hm2⟩ := getnum_some _ _ _ hm
                  obtain ⟨hd1, hd2⟩ := getnum_some _ _ _ hd
                  have h1' := skipHyphen_some _ _ h1
                  have h2' := skipHyphen_some _ _ h2
                  subst hd2 h2' hm2 h1' hy2
                  simp
                  omega


/-! ## Claims -/

/-- C7: the canonical date string is the query key and the file-naming key.
For every option value `s` of the listing that `time.Parse` accepts as a
`2006-01-02` date `t`, `getDates` returns `t`, formatting `t` gives back `s`,
`getData` posts `search_key = s`, and the archive file checked and written for
`t` is `<pwd>/data/s.csv`. -/
theorem canonical_date_key (env : Env) (options : List (Option String)) (s pwd : String)
    (t : Time)
    (hlist : env.listing "http://j2funds.info/invest/contents/futures/daily.php" = .ok options)
    (hs : some s ∈ options) (hparse : timeParse s = .ok t) (hwd : env.getwd = .ok pwd) :
    (∃ dates, getDates env = .ok dates ∧ t ∈ dates) ∧
    t.Format = s ∧
    (getData env t).1 =
      [Event.postForm "http://j2funds.info/invest/func/futures/_get_futures_daily_data.php"
        "daily.php" s] ∧
    dataFileName t = s ++ ".csv" ∧
    dataFilePath env t = .ok (pwd ++ "/data" ++ "/" ++ (s ++ ".csv")) ∧
    ∀ fs : FS, isDataFileExist env fs t =
      .ok (isFileExist fs (pwd ++ "/data" ++ "/" ++ (s ++ ".csv"))) := by
  have hfmt : t.Format = s := by
    unfold timeParse at hparse
    split at hparse
    · rename_i t0 h0
      simp only [Except.ok.injEq] at hparse
      subst hparse
      have := (parseLayout_some _ _ h0).1
      unfold Time.Format
      rw [← this]
    · simp at hparse
  have hname : dataFileName t = s ++ ".csv" := by simp [dataFileName, hfmt]
  have hpath : dataFilePath env t = .ok (pwd ++ "/data" ++ "/" ++ (s ++ ".csv")) := by
    simp [dataFilePath, dataDir, hwd, hname]
  refine ⟨?_, hfmt, ?_, hname, hpath, ?_⟩
  · have hget : getDates env = .ok (options.map fun o =>
        match timeParse (o.getD "") with
        | .ok date => date
        | .error _ => Time.zero) := by simp only [getDates, hlist]
    refine ⟨_, hget, ?_⟩
    rw [List.mem_map]
    exact ⟨some s, hs, by simp [hparse]⟩
  · unfold getData
    simp only [hfmt]
    split
    · rfl
    · split
      · rfl
      · split <;> rfl
  · intro fs
    simp [isDataFileExist, hpath]

/-- Witness of C7 on the listing of `demoEnv`. -/
theorem canonical_date_key_witness :
    (∃ dates, getDates demoEnv = .ok dates ∧ (⟨2021, 5, 4⟩ : Time) ∈ dates) ∧
    (⟨2021, 5, 4⟩ : Time).Format = "2021-05-04" ∧
    (getData demoEnv ⟨2021, 5, 4⟩).1 =
      [Event.postForm "http://j2funds.info/invest/func/futures/_get_futures_daily_data.php"
        "daily.php" "2021-05-04"] ∧
    dataFileName ⟨2021, 5, 4⟩ = "2021-05-04" ++ ".csv" ∧
    dataFilePath demoEnv ⟨2021, 5, 4⟩ = .ok ("/w" ++ "/data" ++ "/" ++ ("2021-05-04" ++ ".csv")) ∧
    ∀ fs : FS, isDataFileExist demoEnv fs ⟨2021, 5, 4⟩ =
      .ok (isFileExist fs ("/w" ++ "/data" ++ "/" ++ ("2021-05-04" ++ ".csv"))) :=
  canonical_date_key demoEnv [some "2021-05-03", some "2021-05-04", some "2021-05-03"]
    "2021-05-04" "/w" ⟨2021, 5, 4⟩ rfl (by simp) rfl rfl

theorem timeParse_ok (s : String) (t : Time) (h : timeParse s = .ok t) :
    parseLayout s.data = some t := by
  unfold timeParse at h
  split at h
  · rename_i t0 h0
    simp only [Except.ok.injEq] at h
    rw [h0, h]
  · simp at h

theorem daysIn_le (m y : Nat) : daysIn m y ≤ 31 := by
  unfold daysIn
  split
  · omega
  · generalize m - 1 = k
    by_cases h : k < 12
    · interval_cases k <;> simp
    · rw [List.getD_eq_default]
      · omega
      · simp; omega

theorem parseLayout_inLayout (v : List Char) (t : Time) (h : parseLayout v = some t) :
    t.inLayout := by
  obtain ⟨_, hy, _, hm, _, hd⟩ := parseLayout_some v t h
  have := daysIn_le t.month t.year
  exact ⟨hy, by omega, by omega⟩

theorem appendInt_four (x : Nat) (h : x < 10000) :
    appendInt x 4 = [utod (x / 1000), utod (x / 100 % 10), utod (x / 10 % 10), utod (x % 10)] := by
  simp [appendInt, h]

theorem appendInt_two (x : Nat) (h : x < 100) :
    appendInt x 2 = [utod (x / 10), utod (x % 10)] := by
  simp [appendInt, h]

theorem utod_inj (a b : Nat) (ha : a < 10) (hb : b < 10) (h : utod a = utod b) : a = b := by
  have := congrArg Char.toNat h
  rw [toNat_utod a ha, toNat_utod b hb] at this
  omega

theorem format_inj (t u : Time) (ht : t.inLayout) (hu : u.inLayout)
    (h : t.Format = u.Format) : t = u := by
  obtain ⟨ty, tm, td⟩ := t
  obtain ⟨uy, um, ud⟩ := u
  obtain ⟨h1, h2, h3⟩ := ht
  obtain ⟨h4, h5, h6⟩ := hu
  simp only at h1 h2 h3 h4 h5 h6
  have h := congrArg String.data h
  simp only [Time.Format, appendInt_four _ h1, appendInt_four _ h4, appendInt_two _ h2,
    appendInt_two _ h3, appendInt_two _ h5, appendInt_two _ h6, true_and,
    List.cons_append, List.nil_append, List.cons.injEq, and_true] at h
  obtain ⟨a1, a2, a3, a4, b1, b2, c1, c2⟩ := h
  have e1 := utod_inj _ _ (by omega) (by omega) a1
  have e2 := utod_inj _ _ (by omega) (by omega) a2
  have e3 := utod_inj _ _ (by omega) (by omega) a3
  have e4 := utod_inj _ _ (by omega) (by omega) a4
  have e5 := utod_inj _ _ (by omega) (by omega) b1
  have e6 := utod_inj _ _ (by omega) (by omega) b2
  have e7 := utod_inj _ _ (by omega) (by omega) c1
  have e8 := utod_inj _ _ (by omega) (by omega) c2
  have hy : ty = uy := by omega
  have hm : tm = um := by omega
  have hd : td = ud := by omega
  subst hy hm hd
  rfl

theorem string_append_right_cancel (a b c : String) (h : a ++ c = b ++ c) : a = b := by
  have := congrArg String.data h
  simp only [String.data_append] at this
  exact String.ext (List.append_cancel_right this)

theorem string_append_left_cancel (a b c : String) (h : c ++ a = c ++ b) : a = b := by
  have := congrArg String.data h
  simp only [String.data_append] at this
  exact String.ext (List.append_cancel_left this)

theorem archivePath_inj (pwd : String) (t u : Time) (ht : t.inLayout) (hu : u.inLayout)
    (h : archivePath pwd t = archivePath pwd u) : t = u := by
  unfold archivePath dataFileName at h
  exact format_inj t u ht hu
    (string_append_right_cancel _ _ _ (string_append_left_cancel _ _ _ h))

theorem getDates_inLayout (env : Env) (dates : List Time) (h : getDates env = .ok dates) :
    ∀ d ∈ dates, d.inLayout := by
  unfold getDates at h
  dsimp only at h
  split at h
  · simp at h
  · simp only [Except.ok.injEq] at h
    subst h
    intro d hd
    rw [List.mem_map] at hd
    obtain ⟨o, _, ho⟩ := hd
    subst ho
    cases hp : timeParse (o.getD "") with
    | ok t => exact parseLayout_inLayout _ _ (timeParse_ok _ _ hp)
    | error e => exact (⟨by decide, by decide, by decide⟩ : Time.zero.inLayout)

theorem dataFilePath_eq (env : Env) (pwd : String) (hwd : env.getwd = .ok pwd) (d : Time) :
    dataFilePath env d = .ok (archivePath pwd d) := by
  simp [dataFilePath, dataDir, hwd, archivePath]

theorem isDataFileExist_eq (env : Env) (pwd : String) (hwd : env.getwd = .ok pwd) (fs : FS)
    (d : Time) : isDataFileExist env fs d = .ok (isFileExist fs (archivePath pwd d)) := by
  simp [isDataFileExist, dataFilePath_eq env pwd hwd]

theorem getData_fst (env : Env) (d : Time) : (getData env d).1 = [fetchOf d] := by
  unfold getData fetchOf
  dsimp only
  split
  · rfl
  · split
    · rfl
    · split <;> rfl

theorem FS.set_set (fs : FS) (p : String) (a b : Node) : (fs.set p a).set p b = fs.set p b := by
  funext q
  simp only [FS.set]
  split <;> rfl

theorem saveDatasetAsCsv_fresh (env : Env) (fs : FS) (dataset : List Data) (p : String)
    (hp : isFileExist fs p = false) :
    saveDatasetAsCsv env fs dataset p =
      match env.createErr p with
      | some e => (fs, [], .error e)
      | none =>
        (fs.set p (Node.file (writtenBytes env dataset p)),
          [Event.create p, Event.write p (writtenBytes env dataset p)], .ok ()) := by
  have hnone : fs p = none := by
    simpa [isFileExist] using hp
  unfold saveDatasetAsCsv osCreate
  cases hc : env.createErr p with
  | some e => simp
  | none => simp [hnone, FS.set_set]

/-- One turn of the loop when the working directory is known. -/
theorem mainLoop_cons (env : Env) (pwd : String) (hwd : env.getwd = .ok pwd) (fs : FS)
    (d : Time) (rest : List Time) :
    mainLoop env fs (d :: rest) =
      if isFileExist fs (archivePath pwd d) = true then
        ⟨(mainLoop env fs rest).fs,
          Event.println (dataFileName d ++ " already exists. skip it.") ::
            (mainLoop env fs rest).trace,
          (mainLoop env fs rest).err⟩
      else
        match (getData env d).2 with
        | .error e => ⟨fs, [Event.sleep 2000, fetchOf d, Event.fatal e], some e⟩
        | .ok dataset =>
          match env.createErr (archivePath pwd d) with
          | some e => ⟨fs, [Event.sleep 2000, fetchOf d, Event.fatal e], some e⟩
          | none =>
            let fs1 := fs.set (archivePath pwd d)
              (Node.file (writtenBytes env dataset (archivePath pwd d)))
            ⟨(mainLoop env fs1 rest).fs,
              Event.sleep 2000 :: fetchOf d :: Event.create (archivePath pwd d) ::
                Event.write (archivePath pwd d)
                  (writtenBytes env dataset (archivePath pwd d)) ::
                Event.println (dataFileName d ++ " saved.") :: (mainLoop env fs1 rest).trace,
              (mainLoop env fs1 rest).err⟩ := by
  rw [mainLoop]
  simp only [dataFilePath_eq env pwd hwd, isDataFileExist_eq env pwd hwd, getData_fst]
  cases hex : isFileExist fs (archivePath pwd d) with
  | true => simp
  | false =>
    simp only [Bool.false_eq_true, if_false]
    cases hg : (getData env d).2 with
    | error e => simp
    | ok dataset =>
      simp only [saveDatasetAsCsv_fresh env fs dataset _ hex]
      cases hc : env.createErr (archivePath pwd d) with
      | some e => simp
      | none => simp

/-- Without a working directory the loop stops at its first date. -/
theorem mainLoop_cons_nowd (env : Env) (e : String) (hwd : env.getwd = .error e) (fs : FS)
    (d : Time) (rest : List Time) :
    mainLoop env fs (d :: rest) = ⟨fs, [Event.fatal e], some e⟩ := by
  rw [mainLoop]
  simp [dataFilePath, dataDir, hwd]

/-- Induction over the turns of the loop: a property of runs that holds for
the empty run and is kept by each of the five ways a turn can go holds for
every run. -/
theorem mainLoop_induct (env : Env) (P : FS → List Time → Run → Prop)
    (hnil : ∀ fs, P fs [] ⟨fs, [], none⟩)
    (hnowd : ∀ fs d rest e, env.getwd = .error e →
      P fs (d :: rest) ⟨fs, [Event.fatal e], some e⟩)
    (hskip : ∀ pwd fs d rest, env.getwd = .ok pwd →
      isFileExist fs (archivePath pwd d) = true →
      P fs rest (mainLoop env fs rest) →
      P fs (d :: rest)
        ⟨(mainLoop env fs rest).fs,
          Event.println (dataFileName d ++ " already exists. skip it.") ::
            (mainLoop env fs rest).trace,
          (mainLoop env fs rest).err⟩)
    (hfetch : ∀ pwd fs d rest e, env.getwd = .ok pwd →
      isFileExist fs (archivePath pwd d) = false →
      (getData env d).2 = .error e →
      P fs (d :: rest) ⟨fs, [Event.sleep 2000, fetchOf d, Event.fatal e], some e⟩)
    (hcreate : ∀ pwd fs d rest dataset e, env.getwd = .ok pwd →
      isFileExist fs (archivePath pwd d) = false →
      (getData env d).2 = .ok dataset →
      env.createErr (archivePath pwd d) = some e →
      P fs (d :: rest) ⟨fs, [Event.sleep 2000, fetchOf d, Event.fatal e], some e⟩)
    (hsave : ∀ pwd fs d rest dataset, env.getwd = .ok pwd →
      isFileExist fs (archivePath pwd d) = false →
      (getData env d).2 = .ok dataset →
      env.createErr (archivePath pwd d) = none →
      P (fs.set (archivePath pwd d) (Node.file (writtenBytes env dataset (archivePath pwd d))))
        rest
        (mainLoop env
          (fs.set (archivePath pwd d) (Node.file (writtenBytes env dataset (archivePath pwd d))))
          rest) →
      P fs (d :: rest)
        ⟨(mainLoop env
            (fs.set (archivePath pwd d)
              (Node.file (writtenBytes env dataset (archivePath pwd d)))) rest).fs,
          Event.sleep 2000 :: fetchOf d :: Event.create (archivePath pwd d) ::
            Event.write (archivePath pwd d) (writtenBytes env dataset (archivePath pwd d)) ::
            Event.println (dataFileName d ++ " saved.") ::
            (mainLoop env
              (fs.set (archivePath pwd d)
                (Node.file (writtenBytes env dataset (archivePath pwd d)))) rest).trace,
          (mainLoop env
            (fs.set (archivePath pwd d)
              (Node.file (writtenBytes env dataset (archivePath pwd d)))) rest).err⟩) :
    ∀ fs dates, P fs dates (mainLoop env fs dates) := by
  intro fs dates
  induction dates generalizing fs with
  | nil => rw [mainLoop]; exact hnil fs
  | cons d rest ih =>
    cases hwd : env.getwd with
    | error e =>
      rw [mainLoop_cons_nowd env e hwd]
      exact hnowd fs d rest e hwd
    | ok pwd =>
      rw [mainLoop_cons env pwd hwd]
      cases hex : isFileExist fs (archivePath pwd d) with
      | true =>
        simp only [if_true]
        exact hskip pwd fs d rest hwd hex (ih fs)
      | false =>
        simp only [Bool.false_eq_true, if_false]
        cases hg : (getData env d).2 with
        | error e => exact hfetch pwd fs d rest e hwd hex hg
        | ok dataset =>
          cases hc : env.createErr (archivePath pwd d) with
          | some e => exact hcreate pwd fs d rest dataset e hwd hex hg hc
          | none => exact hsave pwd fs d rest dataset hwd hex hg hc (ih _)

theorem replay_cons (fs : FS) (e : Event) (t : List Event) :
    replay fs (e :: t) = replay (applyEvent fs e) t := rfl

theorem isFileExist_set (fs : FS) (p q : String) (n : Node) :
    isFileExist (fs.set p n) q = (decide (q = p) || isFileExist fs q) := by
  unfold isFileExist FS.set
  by_cases h : q = p <;> simp [h]

/-- The file system a run leaves is the one its events build. -/
theorem mainLoop_fs_replay (env : Env) (fs : FS) (dates : List Time) :
    (mainLoop env fs dates).fs = replay fs (mainLoop env fs dates).trace := by
  refine mainLoop_induct env (fun fs _ r => r.fs = replay fs r.trace) ?_ ?_ ?_ ?_ ?_ ?_ fs dates
  · intro fs; rfl
  · intro fs d rest e _; rfl
  · intro pwd fs d rest _ _ ih
    simpa [replay_cons, applyEvent] using ih
  · intro pwd fs d rest e _ _ _; rfl
  · intro pwd fs d rest dataset e _ _ _ _; rfl
  · intro pwd fs d rest dataset _ _ _ _ ih
    simpa [replay_cons, applyEvent, fetchOf, FS.set_set] using ih

/-- Every created path is absent from the file system at that moment. -/
theorem mainLoop_create_fresh (env : Env) (fs : FS) (dates : List Time) :
    ∀ i p, (mainLoop env fs dates).trace[i]? = some (Event.create p) →
      isFileExist (replay fs ((mainLoop env fs dates).trace.take i)) p = false := by
  refine mainLoop_induct env
    (fun fs _ r => ∀ i p, r.trace[i]? = some (Event.create p) →
      isFileExist (replay fs (r.trace.take i)) p = false) ?_ ?_ ?_ ?_ ?_ ?_ fs dates
  · intro fs i p h; simp at h
  · intro fs d rest e _ i p h
    rcases i with _ | i <;> simp at h
  · intro pwd fs d rest _ _ ih i p h
    rcases i with _ | i
    · simp at h
    · simp only [List.getElem?_cons_succ] at h
      simpa [replay_cons, applyEvent] using ih i p h
  · intro pwd fs d rest e _ _ _ i p h
    rcases i with _ | _ | _ | i <;> simp [fetchOf] at h
  · intro pwd fs d rest dataset e _ _ _ _ i p h
    rcases i with _ | _ | _ | i <;> simp [fetchOf] at h
  · intro pwd fs d rest dataset _ hex _ _ ih i p h
    rcases i with _ | _ | _ | _ | _ | i
    · simp at h
    · simp [fetchOf] at h
    · simp only [List.getElem?_cons_succ, List.getElem?_cons_zero, Option.some.injEq,
        Event.create.injEq] at h
      subst h
      simpa [replay, applyEvent, fetchOf] using hex
    · simp at h
    · simp at h
    · simp only [List.getElem?_cons_succ] at h
      simpa [replay_cons, applyEvent, fetchOf, FS.set_set] using ih i p h

/-- Every write goes to the file created by the event just before it. -/
theorem mainLoop_write_after_create (env : Env) (fs : FS) (dates : List Time) :
    ∀ i p b, (mainLoop env fs dates).trace[i]? = some (Event.write p b) →
      ∃ j, i = j + 1 ∧ (mainLoop env fs dates).trace[j]? = some (Event.create p) := by
  refine mainLoop_induct env
    (fun _ _ r => ∀ i p b, r.trace[i]? = some (Event.write p b) →
      ∃ j, i = j + 1 ∧ r.trace[j]? = some (Event.create p)) ?_ ?_ ?_ ?_ ?_ ?_ fs dates
  · intro fs i p b h; simp at h
  · intro fs d rest e _ i p b h
    rcases i with _ | i <;> simp at h
  · intro pwd fs d rest _ _ ih i p b h
    rcases i with _ | i
    · simp at h
    · simp only [List.getElem?_cons_succ] at h
      obtain ⟨j, hj, hc⟩ := ih i p b h
      exact ⟨j + 1, by omega, by simpa using hc⟩
  · intro pwd fs d rest e _ _ _ i p b h
    rcases i with _ | _ | _ | i <;> simp [fetchOf] at h
  · intro pwd fs d rest dataset e _ _ _ _ i p b h
    rcases i with _ | _ | _ | i <;> simp [fetchOf] at h
  · intro pwd fs d rest dataset _ hex _ _ ih i p b h
    rcases i with _ | _ | _ | _ | _ | i
    · simp at h
    · simp [fetchOf] at h
    · simp at h
    · simp only [List.getElem?_cons_succ, List.getElem?_cons_zero, Option.some.injEq,
        Event.write.injEq] at h
      exact ⟨2, rfl, by simp [h.1]⟩
    · simp at h
    · simp only [List.getElem?_cons_succ] at h
      obtain ⟨j, hj, hc⟩ := ih i p b h
      exact ⟨j + 5, by omega, by simpa using hc⟩

/-- A file present before the run is what it was after the run. -/
theorem mainLoop_keeps (env : Env) (fs : FS) (dates : List Time) :
    ∀ p, isFileExist fs p = true → (mainLoop env fs dates).fs p = fs p := by
  refine mainLoop_induct env
    (fun fs _ r => ∀ p, isFileExist fs p = true → r.fs p = fs p) ?_ ?_ ?_ ?_ ?_ ?_ fs dates
  · intro fs p _; rfl
  · intro fs d rest e _ p _; rfl
  · intro pwd fs d rest _ _ ih p hp
    exact ih p hp
  · intro pwd fs d rest e _ _ _ p _; rfl
  · intro pwd fs d rest dataset e _ _ _ _ p _; rfl
  · intro pwd fs d rest dataset _ hex _ _ ih p hp
    have hne : p ≠ archivePath pwd d := by
      intro h
      rw [h, hex] at hp
      exact Bool.false_ne_true hp
    have h1 : isFileExist (fs.set (archivePath pwd d)
        (Node.file (writtenBytes env dataset (archivePath pwd d)))) p = true := by
      rw [isFileExist_set, hp, Bool.or_true]
    rw [show ∀ r : Run, (Run.mk r.fs _ r.err).fs = r.fs from fun _ => rfl]
    rw [ih p h1]
    simp [FS.set, hne]

/-- The date of a file present before the run is never requested. -/
theorem mainLoop_no_refetch (env : Env) (fs : FS) (dates : List Time) :
    ∀ pwd d, env.getwd = .ok pwd → isFileExist fs (archivePath pwd d) = true →
      ∀ url name, Event.postForm url name d.Format ∉ (mainLoop env fs dates).trace := by
  refine mainLoop_induct env
    (fun fs _ r => ∀ pwd d, env.getwd = .ok pwd → isFileExist fs (archivePath pwd d) = true →
      ∀ url name, Event.postForm url name d.Format ∉ r.trace) ?_ ?_ ?_ ?_ ?_ ?_ fs dates
  · intro fs pwd d _ _ url name; simp
  · intro fs d rest e _ pwd d' _ _ url name; simp
  · intro pwd fs d rest _ _ ih pwd' d' hwd' hd' url name
    simpa using ih pwd' d' hwd' hd' url name
  · intro pwd fs d rest e hwd hex _ pwd' d' hwd' hd' url name
    rw [hwd] at hwd'
    simp only [Except.ok.injEq] at hwd'
    subst hwd'
    simp only [fetchOf, List.mem_cons, reduceCtorEq, Event.postForm.injEq, List.mem_singleton,
      false_or, or_false, List.not_mem_nil, not_and]
    intro _ _ hf
    unfold archivePath dataFileName at hd' hex
    rw [hf, hex] at hd'
    exact Bool.false_ne_true hd'
  · intro pwd fs d rest dataset e hwd hex _ _ pwd' d' hwd' hd' url name
    rw [hwd] at hwd'
    simp only [Except.ok.injEq] at hwd'
    subst hwd'
    simp only [fetchOf, List.mem_cons, reduceCtorEq, Event.postForm.injEq, List.mem_singleton,
      false_or, or_false, List.not_mem_nil, not_and]
    intro _ _ hf
    unfold archivePath dataFileName at hd' hex
    rw [hf, hex] at hd'
    exact Bool.false_ne_true hd'
  · intro pwd fs d rest dataset hwd hex _ _ ih pwd' d' hwd' hd' url name
    have hwd'' := hwd'
    rw [hwd] at hwd''
    simp only [Except.ok.injEq] at hwd''
    subst hwd''
    have h1 : isFileExist (fs.set (archivePath pwd d)
        (Node.file (writtenBytes env dataset (archivePath pwd d)))) (archivePath pwd d') = true := by
      rw [isFileExist_set, hd', Bool.or_true]
    have := ih pwd d' hwd' h1 url name
    simp only [fetchOf, List.mem_cons, reduceCtorEq, Event.postForm.injEq, false_or, not_or,
      not_and]
    refine ⟨?_, this⟩
    intro _ _ hf
    unfold archivePath dataFileName at hd' hex
    rw [hf, hex] at hd'
    exact Bool.false_ne_true hd'

/-- Induction over the turns of the loop when the working directory is known. -/
theorem mainLoop_induct_wd (env : Env) (pwd : String) (hwd : env.getwd = .ok pwd)
    (P : FS → List Time → Run → Prop)
    (hnil : ∀ fs, P fs [] ⟨fs, [], none⟩)
    (hskip : ∀ fs d rest,
      isFileExist fs (archivePath pwd d) = true →
      P fs rest (mainLoop env fs rest) →
      P fs (d :: rest)
        ⟨(mainLoop env fs rest).fs,
          Event.println (dataFileName d ++ " already exists. skip it.") ::
            (mainLoop env fs rest).trace,
          (mainLoop env fs rest).err⟩)
    (hfetch : ∀ fs d rest e,
      isFileExist fs (archivePath pwd d) = false →
      (getData env d).2 = .error e →
      P fs (d :: rest) ⟨fs, [Event.sleep 2000, fetchOf d, Event.fatal e], some e⟩)
    (hcreate : ∀ fs d rest dataset e,
      isFileExist fs (archivePath pwd d) = false →
      (getData env d).2 = .ok dataset →
      env.createErr (archivePath pwd d) = some e →
      P fs (d :: rest) ⟨fs, [Event.sleep 2000, fetchOf d, Event.fatal e], some e⟩)
    (hsave : ∀ fs d rest dataset,
      isFileExist fs (archivePath pwd d) = false →
      (getData env d).2 = .ok dataset →
      env.createErr (archivePath pwd d) = none →
      P (fs.set (archivePath pwd d) (Node.file (writtenBytes env dataset (archivePath pwd d))))
        rest
        (mainLoop env
          (fs.set (archivePath pwd d) (Node.file (writtenBytes env dataset (archivePath pwd d))))
          rest) →
      P fs (d :: rest)
        ⟨(mainLoop env
            (fs.set (archivePath pwd d)
              (Node.file (writtenBytes env dataset (archivePath pwd d)))) rest).fs,
          Event.sleep 2000 :: fetchOf d :: Event.create (archivePath pwd d) ::
            Event.write (archivePath pwd d) (writtenBytes env dataset (archivePath pwd d)) ::
            Event.println (dataFileName d ++ " saved.") ::
            (mainLoop env
              (fs.set (archivePath pwd d)
                (Node.file (writtenBytes env dataset (archivePath pwd d)))) rest).trace,
          (mainLoop env
            (fs.set (archivePath pwd d)
              (Node.file (writtenBytes env dataset (archivePath pwd d)))) rest).err⟩) :
    ∀ fs dates, P fs dates (mainLoop env fs dates) := by
  have key : ∀ pwd', env.getwd = .ok pwd' → pwd' = pwd := by
    intro pwd' h
    rw [hwd] at h
    simp only [Except.ok.injEq] at h
    exact h.symm
  refine mainLoop_induct env P hnil ?_ ?_ ?_ ?_ ?_
  · intro fs d rest e h
    rw [hwd] at h
    simp at h
  · intro pwd' fs d rest h
    rw [key pwd' h]
    exact hskip fs d rest
  · intro pwd' fs d rest e h
    rw [key pwd' h]
    exact hfetch fs d rest e
  · intro pwd' fs d rest dataset e h
    rw [key pwd' h]
    exact hcreate fs d rest dataset e
  · intro pwd' fs d rest dataset h
    rw [key pwd' h]
    exact hsave fs d rest dataset

/-- When every date is archived the run only prints its skip notices. -/
theorem mainLoop_all_archived (env : Env) (pwd : String) (hwd : env.getwd = .ok pwd) (fs : FS)
    (dates : List Time) (h : ∀ d ∈ dates, isFileExist fs (archivePath pwd d) = true) :
    mainLoop env fs dates =
      ⟨fs, dates.map (fun d => Event.println (dataFileName d ++ " already exists. skip it.")),
        none⟩ := by
  induction dates with
  | nil => rw [mainLoop]; rfl
  | cons d rest ih =>
    rw [mainLoop_cons env pwd hwd, if_pos (h d (List.mem_cons_self _ _)),
      ih (fun x hx => h x (List.mem_cons_of_mem _ hx))]
    rfl

/-- A file present before the run is present after it. -/
theorem mainLoop_exists_mono (env : Env) (fs : FS) (dates : List Time) (p : String)
    (h : isFileExist fs p = true) : isFileExist (mainLoop env fs dates).fs p = true := by
  unfold isFileExist
  rw [mainLoop_keeps env fs dates p h]
  exact h

/-- After a run that was not stopped every date of the run is archived. -/
theorem mainLoop_success_archived (env : Env) (pwd : String) (hwd : env.getwd = .ok pwd)
    (fs : FS) (dates : List Time) :
    (mainLoop env fs dates).err = none →
      ∀ d ∈ dates, isFileExist (mainLoop env fs dates).fs (archivePath pwd d) = true := by
  refine mainLoop_induct_wd env pwd hwd
    (fun _ dates r => r.err = none → ∀ d ∈ dates, isFileExist r.fs (archivePath pwd d) = true)
    ?_ ?_ ?_ ?_ ?_ fs dates
  · intro fs _ d hd; simp at hd
  · intro fs d rest hex ih herr x hx
    rcases List.mem_cons.1 hx with h | h
    · subst h
      exact mainLoop_exists_mono env fs rest _ hex
    · exact ih herr x h
  · intro fs d rest e _ _ herr; simp at herr
  · intro fs d rest dataset e _ _ _ herr; simp at herr
  · intro fs d rest dataset _ _ _ ih herr x hx
    rcases List.mem_cons.1 hx with h | h
    · subst h
      exact mainLoop_exists_mono env _ rest _ (by simp [isFileExist_set])
    · exact ih herr x h

/-- C2: idempotence of the cycle.  After a run over `dates` that was not
stopped, a second run over the same dates from the archive the first one left
skips every date: it is not stopped, its trace is exactly one skip notice per
date, hence it calls `getData` zero times, sleeps zero times and creates or
writes no file, and it leaves the file system the first run left. -/
theorem idempotent_cycle (env : Env) (fs : FS) (dates : List Time)
    (hfirst : (mainLoop env fs dates).err = none) :
    (mainLoop env (mainLoop env fs dates).fs dates).err = none ∧
    (mainLoop env (mainLoop env fs dates).fs dates).trace =
      dates.map (fun d => Event.println (dataFileName d ++ " already exists. skip it.")) ∧
    fetchCount (mainLoop env (mainLoop env fs dates).fs dates).trace = 0 ∧
    sleepCount (mainLoop env (mainLoop env fs dates).fs dates).trace = 0 ∧
    (∀ e ∈ (mainLoop env (mainLoop env fs dates).fs dates).trace, isFileWrite e = false) ∧
    (mainLoop env (mainLoop env fs dates).fs dates).fs = (mainLoop env fs dates).fs := by
  have hrun : mainLoop env (mainLoop env fs dates).fs dates =
      ⟨(mainLoop env fs dates).fs,
        dates.map (fun d => Event.println (dataFileName d ++ " already exists. skip it.")),
        none⟩ := by
    cases hwd : env.getwd with
    | error e =>
      cases dates with
      | nil => rw [mainLoop, mainLoop]; rfl
      | cons d rest =>
        rw [mainLoop_cons_nowd env e hwd] at hfirst
        simp at hfirst
    | ok pwd =>
      exact mainLoop_all_archived env pwd hwd _ dates
        (mainLoop_success_archived env pwd hwd fs dates hfirst)
  rw [hrun]
  refine ⟨rfl, rfl, ?_, ?_, ?_, rfl⟩
  · simp only [fetchCount, List.countP_eq_zero, List.mem_map]
    rintro e ⟨d, _, rfl⟩
    simp [isFetch]
  · simp only [sleepCount, List.countP_eq_zero, List.mem_map]
    rintro e ⟨d, _, rfl⟩
    simp [isSleep]
  · simp only [List.mem_map]
    rintro e ⟨d, _, rfl⟩
    rfl

/-- C4: existing archive entries are never overwritten.  In every run the
file system left is the one the events of the trace build; every file creation
targets a path that does not exist at that moment; every write goes to the
file created just before it; hence every entry present before the run is
unchanged after it, and the date of an archived file is never requested. -/
theorem existing_entries_never_overwritten (env : Env) (fs : FS) (dates : List Time) :
    (mainLoop env fs dates).fs = replay fs (mainLoop env fs dates).trace ∧
    (∀ i p, (mainLoop env fs dates).trace[i]? = some (Event.create p) →
      isFileExist (replay fs ((mainLoop env fs dates).trace.take i)) p = false) ∧
    (∀ i p b, (mainLoop env fs dates).trace[i]? = some (Event.write p b) →
      ∃ j, i = j + 1 ∧ (mainLoop env fs dates).trace[j]? = some (Event.create p)) ∧
    (∀ p, isFileExist fs p = true → (mainLoop env fs dates).fs p = fs p) ∧
    (∀ d, isDataFileExist env fs d = .ok true →
      ∀ url name, Event.postForm url name d.Format ∉ (mainLoop env fs dates).trace) := by
  refine ⟨mainLoop_fs_replay env fs dates, mainLoop_create_fresh env fs dates,
    mainLoop_write_after_create env fs dates, mainLoop_keeps env fs dates, ?_⟩
  intro d hd
  cases hwd : env.getwd with
  | error e => simp [isDataFileExist, dataFilePath, dataDir, hwd] at hd
  | ok pwd =>
    rw [isDataFileExist_eq env pwd hwd] at hd
    simp only [Except.ok.injEq] at hd
    exact mainLoop_no_refetch env fs dates pwd d hwd hd

/-- Witness of C2: the run of `demoEnv` is not stopped, and its second run
fetches nothing. -/
theorem idempotent_cycle_witness :
    (mainLoop demoEnv demoFS demoDates).err = none ∧
    fetchCount (mainLoop demoEnv (mainLoop demoEnv demoFS demoDates).fs demoDates).trace = 0 :=
  ⟨by decide, (idempotent_cycle demoEnv demoFS demoDates (by decide)).2.2.1⟩

/-- A run in which no performed operation fails: it is not stopped, it adds
exactly the files of its dates, and it calls `getData` once per distinct
missing date. -/
theorem mainLoop_complete (env : Env) (pwd : String) (hwd : env.getwd = .ok pwd) (fs : FS)
    (dates : List Time) :
    (∀ d ∈ dates, d.inLayout) →
    (∀ d ∈ dates, isFileExist fs (archivePath pwd d) = false →
      ∃ dataset, (getData env d).2 = .ok dataset) →
    (∀ d ∈ dates, isFileExist fs (archivePath pwd d) = false →
      env.createErr (archivePath pwd d) = none) →
    (mainLoop env fs dates).err = none ∧
    (∀ p, isFileExist (mainLoop env fs dates).fs p = true ↔
      (isFileExist fs p = true ∨ ∃ d ∈ dates, p = archivePath pwd d)) ∧
    fetchCount (mainLoop env fs dates).trace =
      (dates.toFinset.filter (fun d => isFileExist fs (archivePath pwd d) = false)).card := by
  refine mainLoop_induct_wd env pwd hwd
    (fun fs dates r =>
      (∀ d ∈ dates, d.inLayout) →
      (∀ d ∈ dates, isFileExist fs (archivePath pwd d) = false →
        ∃ dataset, (getData env d).2 = .ok dataset) →
      (∀ d ∈ dates, isFileExist fs (archivePath pwd d) = false →
        env.createErr (archivePath pwd d) = none) →
      r.err = none ∧
      (∀ p, isFileExist r.fs p = true ↔
        (isFileExist fs p = true ∨ ∃ d ∈ dates, p = archivePath pwd d)) ∧
      fetchCount r.trace =
        (dates.toFinset.filter (fun d => isFileExist fs (archivePath pwd d) = false)).card)
    ?_ ?_ ?_ ?_ ?_ fs dates
  · intro fs _ _ _
    simp [fetchCount]
  · intro fs d rest hex ih hlay hf hc
    obtain ⟨h1, h2, h3⟩ := ih (fun x hx => hlay x (List.mem_cons_of_mem _ hx))
      (fun x hx => hf x (List.mem_cons_of_mem _ hx))
      (fun x hx => hc x (List.mem_cons_of_mem _ hx))
    refine ⟨h1, ?_, ?_⟩
    · intro p
      rw [h2 p]
      constructor
      · rintro (h | ⟨x, hx, hp⟩)
        · exact Or.inl h
        · exact Or.inr ⟨x, List.mem_cons_of_mem _ hx, hp⟩
      · rintro (h | ⟨x, hx, hp⟩)
        · exact Or.inl h
        · rcases List.mem_cons.1 hx with h | h
          · subst h; subst hp; exact Or.inl hex
          · exact Or.inr ⟨x, h, hp⟩
    · simp only [fetchCount, isFetch, List.countP_cons_of_neg, Bool.false_eq_true,
        not_false_eq_true] at h3 ⊢
      rw [h3, List.toFinset_cons, Finset.filter_insert, if_neg (by simp [hex])]
  · intro fs d rest e hex hg _ hf _
    obtain ⟨dataset, hd⟩ := hf d (List.mem_cons_self _ _) hex
    rw [hg] at hd
    simp at hd
  · intro fs d rest dataset e hex _ hce _ _ hc
    have := hc d (List.mem_cons_self _ _) hex
    rw [hce] at this
    simp at this
  · intro fs d rest dataset hex _ _ ih hlay hf hc
    have hsub : ∀ x, isFileExist (fs.set (archivePath pwd d)
        (Node.file (writtenBytes env dataset (archivePath pwd d)))) (archivePath pwd x) = false →
        isFileExist fs (archivePath pwd x) = false ∧ archivePath pwd x ≠ archivePath pwd d := by
      intro x hx
      rw [isFileExist_set, Bool.or_eq_false_iff] at hx
      exact ⟨hx.2, by simpa using hx.1⟩
    obtain ⟨h1, h2, h3⟩ := ih (fun x hx => hlay x (List.mem_cons_of_mem _ hx))
      (fun x hx hm => hf x (List.mem_cons_of_mem _ hx) (hsub x hm).1)
      (fun x hx hm => hc x (List.mem_cons_of_mem _ hx) (hsub x hm).1)
    refine ⟨h1, ?_, ?_⟩
    · intro p
      rw [h2 p, isFileExist_set]
      constructor
      · rintro (h | ⟨x, hx, hp⟩)
        · rcases Bool.or_eq_true_iff.1 h with h | h
          · exact Or.inr ⟨d, List.mem_cons_self _ _, by simpa using h⟩
          · exact Or.inl h
        · exact Or.inr ⟨x, List.mem_cons_of_mem _ hx, hp⟩
      · rintro (h | ⟨x, hx, hp⟩)
        · exact Or.inl (by rw [h, Bool.or_true])
        · rcases List.mem_cons.1 hx with h | h
          · subst h; subst hp; exact Or.inl (by simp)
          · exact Or.inr ⟨x, h, hp⟩
    · have hcount : fetchCount (Event.sleep 2000 :: fetchOf d :: Event.create (archivePath pwd d) ::
          Event.write (archivePath pwd d) (writtenBytes env dataset (archivePath pwd d)) ::
          Event.println (dataFileName d ++ " saved.") ::
          (mainLoop env (fs.set (archivePath pwd d)
            (Node.file (writtenBytes env dataset (archivePath pwd d)))) rest).trace) =
          fetchCount (mainLoop env (fs.set (archivePath pwd d)
            (Node.file (writtenBytes env dataset (archivePath pwd d)))) rest).trace + 1 := by
        simp [fetchCount, fetchOf, isFetch, List.countP_cons]
      rw [hcount, h3, List.toFinset_cons, Finset.filter_insert, if_pos hex]
      have hnot : d ∉ rest.toFinset.filter (fun x => isFileExist (fs.set (archivePath pwd d)
          (Node.file (writtenBytes env dataset (archivePath pwd d)))) (archivePath pwd x) = false) := by
        simp [isFileExist_set]
      rw [← Finset.card_insert_of_not_mem hnot]
      congr 1
      ext x
      simp only [Finset.mem_insert, Finset.mem_filter, List.mem_toFinset]
      constructor
      · rintro (h | ⟨hx, hm⟩)
        · exact Or.inl h
        · exact Or.inr ⟨hx, (hsub x hm).1⟩
      · rintro (h | ⟨hx, hm⟩)
        · exact Or.inl h
        · by_cases hxd : x = d
          · exact Or.inl hxd
          · refine Or.inr ⟨hx, ?_⟩
            rw [isFileExist_set, hm, Bool.or_false]
            simp only [decide_eq_false_iff_not]
            intro hp
            exact hxd (archivePath_inj pwd x d (hlay x (List.mem_cons_of_mem _ hx))
              (hlay d (List.mem_cons_self _ _)) hp)

/-- C1: completeness of one run.  For the dates `getDates` discovers and any
file system, if the working directory is known and no fetch and no file
creation the run performs fails, then the run is not stopped, the files
present after it are exactly the files present before it and the archive files
of the discovered dates (so an in-layout date is archived after the run iff it
was discovered or was archived before), and the number of calls of `getData`
is the number of distinct discovered dates without an archive file before the
run. -/
theorem completeness (env : Env) (fs : FS) (dates : List Time) (pwd : String)
    (hdates : getDates env = .ok dates) (hwd : env.getwd = .ok pwd)
    (hfetch : ∀ d ∈ dates, isDataFileExist env fs d = .ok false →
      ∃ dataset, (getData env d).2 = .ok dataset)
    (hcreate : ∀ d ∈ dates, ∀ p, dataFilePath env d = .ok p → isFileExist fs p = false →
      env.createErr p = none) :
    (mainLoop env fs dates).err = none ∧
    (∀ p, isFileExist (mainLoop env fs dates).fs p = true ↔
      (isFileExist fs p = true ∨ ∃ d ∈ dates, dataFilePath env d = .ok p)) ∧
    (∀ d, d.inLayout →
      (isDataFileExist env (mainLoop env fs dates).fs d = .ok true ↔
        (d ∈ dates ∨ isDataFileExist env fs d = .ok true))) ∧
    fetchCount (mainLoop env fs dates).trace =
      (dates.toFinset.filter (fun d => isFileExist fs (archivePath pwd d) = false)).card := by
  have hlay := getDates_inLayout env dates hdates
  obtain ⟨h1, h2, h3⟩ := mainLoop_complete env pwd hwd fs dates hlay
    (fun d hd hm => hfetch d hd (by rw [isDataFileExist_eq env pwd hwd, hm]))
    (fun d hd hm => hcreate d hd _ (dataFilePath_eq env pwd hwd d) hm)
  refine ⟨h1, ?_, ?_, h3⟩
  · intro p
    rw [h2 p]
    simp only [dataFilePath_eq env pwd hwd, Except.ok.injEq]
    constructor
    · rintro (h | ⟨d, hd, hp⟩)
      · exact Or.inl h
      · exact Or.inr ⟨d, hd, hp.symm⟩
    · rintro (h | ⟨d, hd, hp⟩)
      · exact Or.inl h
      · exact Or.inr ⟨d, hd, hp.symm⟩
  · intro d hd
    simp only [isDataFileExist_eq env pwd hwd, Except.ok.injEq]
    rw [h2 (archivePath pwd d)]
    constructor
    · rintro (h | ⟨x, hx, hp⟩)
      · exact Or.inr h
      · have := archivePath_inj pwd d x hd (hlay x hx) hp
        subst this
        exact Or.inl hx
    · rintro (h | h)
      · exact Or.inr ⟨d, h, rfl⟩
      · exact Or.inl h

/-- Witness of C1: the run of `demoEnv` over its listing, from a file system
that already holds 2021-05-03, is not stopped and calls `getData` once. -/
theorem completeness_witness :
    (mainLoop demoEnv demoFS demoDates).err = none ∧
    fetchCount (mainLoop demoEnv demoFS demoDates).trace = 1 :=
  ⟨(completeness demoEnv demoFS demoDates "/w" rfl rfl (fun _ _ _ => ⟨_, rfl⟩)
      (fun _ _ _ _ _ => rfl)).1,
    ((completeness demoEnv demoFS demoDates "/w" rfl rfl (fun _ _ _ => ⟨_, rfl⟩)
      (fun _ _ _ _ _ => rfl)).2.2.2).trans (by decide)⟩

/-- A run that was not stopped continues with the dates that follow. -/
theorem mainLoop_append (env : Env) (rest : List Time) (fs : FS) (pre : List Time) :
    (mainLoop env fs pre).err = none →
    mainLoop env fs (pre ++ rest) =
      ⟨(mainLoop env (mainLoop env fs pre).fs rest).fs,
        (mainLoop env fs pre).trace ++ (mainLoop env (mainLoop env fs pre).fs rest).trace,
        (mainLoop env (mainLoop env fs pre).fs rest).err⟩ := by
  refine mainLoop_induct env
    (fun fs pre r => r.err = none →
      mainLoop env fs (pre ++ rest) =
        ⟨(mainLoop env r.fs rest).fs, r.trace ++ (mainLoop env r.fs rest).trace,
          (mainLoop env r.fs rest).err⟩) ?_ ?_ ?_ ?_ ?_ ?_ fs pre
  · intro fs _; rfl
  · intro fs d pre' e _ h; simp at h
  · intro pwd fs d pre' hwd hex ih h
    rw [List.cons_append, mainLoop_cons env pwd hwd, if_pos hex, ih h]
    rfl
  · intro pwd fs d pre' e _ _ _ h; simp at h
  · intro pwd fs d pre' dataset e _ _ _ _ h; simp at h
  · intro pwd fs d pre' dataset hwd hex hg hc ih h
    rw [List.cons_append, mainLoop_cons env pwd hwd, if_neg (by simp [hex])]
    simp only [hg, hc]
    rw [ih h]
    rfl

theorem getData_error (env : Env) (d : Time) (e : String)
    (hfail :
      env.postForm "http://j2funds.info/invest/func/futures/_get_futures_daily_data.php"
        "daily.php" d.Format = .error e ∨
      (∃ resp,
        env.postForm "http://j2funds.info/invest/func/futures/_get_futures_daily_data.php"
          "daily.php" d.Format = .ok resp ∧ resp.body = .error e) ∨
      (∃ resp raw,
        env.postForm "http://j2funds.info/invest/func/futures/_get_futures_daily_data.php"
          "daily.php" d.Format = .ok resp ∧ resp.body = .ok raw ∧
          env.unmarshal raw = .error e)) :
    (getData env d).2 = .error e := by
  unfold getData
  rcases hfail with h | ⟨resp, h, hb⟩ | ⟨resp, raw, h, hb, hu⟩
  · simp [h]
  · simp [h, hb]
  · simp [h, hb, hu]

/-- C6: fail-fast on a bad date.  If the run over `pre` is not stopped, the
date `d` has no archive file when the loop reaches it, and its fetch fails
(transport error, body read error or JSON decode failure), then the run over
`pre ++ d :: post` is stopped with that error right after the request for `d`:
its trace is the trace of `pre` followed by the sleep, the request and the
fatal error, so nothing after `d` is fetched or written, the file system is
the one left by the dates before `d`, and `d` has no archive file. -/
theorem fail_fast (env : Env) (fs : FS) (pre post : List Time) (d : Time) (e : String)
    (hpre : (mainLoop env fs pre).err = none)
    (hmiss : isDataFileExist env (mainLoop env fs pre).fs d = .ok false)
    (hfail :
      env.postForm "http://j2funds.info/invest/func/futures/_get_futures_daily_data.php"
        "daily.php" d.Format = .error e ∨
      (∃ resp,
        env.postForm "http://j2funds.info/invest/func/futures/_get_futures_daily_data.php"
          "daily.php" d.Format = .ok resp ∧ resp.body = .error e) ∨
      (∃ resp raw,
        env.postForm "http://j2funds.info/invest/func/futures/_get_futures_daily_data.php"
          "daily.php" d.Format = .ok resp ∧ resp.body = .ok raw ∧
          env.unmarshal raw = .error e)) :
    (mainLoop env fs (pre ++ d :: post)).err = some e ∧
    (mainLoop env fs (pre ++ d :: post)).trace =
      (mainLoop env fs pre).trace ++
        [Event.sleep 2000,
          Event.postForm "http://j2funds.info/invest/func/futures/_get_futures_daily_data.php"
            "daily.php" d.Format,
          Event.fatal e] ∧
    (mainLoop env fs (pre ++ d :: post)).fs = (mainLoop env fs pre).fs ∧
    isDataFileExist env (mainLoop env fs (pre ++ d :: post)).fs d = .ok false := by
  have hg := getData_error env d e hfail
  cases hwd : env.getwd with
  | error e' => simp [isDataFileExist, dataFilePath, dataDir, hwd] at hmiss
  | ok pwd =>
    have hex : isFileExist (mainLoop env fs pre).fs (archivePath pwd d) = false := by
      rw [isDataFileExist_eq env pwd hwd] at hmiss
      simpa using hmiss
    have hstep : mainLoop env (mainLoop env fs pre).fs (d :: post) =
        ⟨(mainLoop env fs pre).fs, [Event.sleep 2000, fetchOf d, Event.fatal e], some e⟩ := by
      rw [mainLoop_cons env pwd hwd, if_neg (by simp [hex])]
      simp only [hg]
    rw [mainLoop_append env (d :: post) fs pre hpre, hstep]
    exact ⟨rfl, rfl, rfl, hmiss⟩

/-- Witness of C6: with 2021-05-02 fetched and saved first, the refused
request for 2021-05-04 stops the run before 2021-05-05. -/
theorem fail_fast_witness :
    (mainLoop brokenEnv demoFS ([⟨2021, 5, 2⟩] ++ ⟨2021, 5, 4⟩ :: [⟨2021, 5, 5⟩])).err =
      some "connection refused" ∧
    isDataFileExist brokenEnv
      (mainLoop brokenEnv demoFS ([⟨2021, 5, 2⟩] ++ ⟨2021, 5, 4⟩ :: [⟨2021, 5, 5⟩])).fs
      ⟨2021, 5, 5⟩ = .ok false :=
  ⟨(fail_fast brokenEnv demoFS [⟨2021, 5, 2⟩] [⟨2021, 5, 5⟩] ⟨2021, 5, 4⟩ "connection refused"
      (by decide) rfl (Or.inl rfl)).1, rfl⟩

/-- Every call of `getData` comes right after a sleep of 2000 ms. -/
theorem mainLoop_fetch_after_sleep (env : Env) (fs : FS) (dates : List Time) :
    ∀ i e, (mainLoop env fs dates).trace[i]? = some e → isFetch e = true →
      ∃ j, i = j + 1 ∧ (mainLoop env fs dates).trace[j]? = some (Event.sleep 2000) := by
  refine mainLoop_induct env
    (fun _ _ r => ∀ i e, r.trace[i]? = some e → isFetch e = true →
      ∃ j, i = j + 1 ∧ r.trace[j]? = some (Event.sleep 2000)) ?_ ?_ ?_ ?_ ?_ ?_ fs dates
  · intro fs i e h; simp at h
  · intro fs d rest e' _ i e h hf
    rcases i with _ | i <;> simp at h
    subst h; simp [isFetch] at hf
  · intro pwd fs d rest _ _ ih i e h hf
    rcases i with _ | i
    · simp at h; subst h; simp [isFetch] at hf
    · simp only [List.getElem?_cons_succ] at h
      obtain ⟨j, hj, hc⟩ := ih i e h hf
      exact ⟨j + 1, by omega, by simpa using hc⟩
  · intro pwd fs d rest e' _ _ _ i e h hf
    rcases i with _ | _ | _ | i <;> simp at h
    · subst h; simp [isFetch] at hf
    · exact ⟨0, rfl, rfl⟩
    · subst h; simp [isFetch] at hf
  · intro pwd fs d rest dataset e' _ _ _ _ i e h hf
    rcases i with _ | _ | _ | i <;> simp at h
    · subst h; simp [isFetch] at hf
    · exact ⟨0, rfl, rfl⟩
    · subst h; simp [isFetch] at hf
  · intro pwd fs d rest dataset _ _ _ _ ih i e h hf
    rcases i with _ | _ | _ | _ | _ | i
    · simp at h; subst h; simp [isFetch] at hf
    · exact ⟨0, rfl, rfl⟩
    · simp at h; subst h; simp [isFetch] at hf
    · simp at h; subst h; simp [isFetch] at hf
    · simp at h; subst h; simp [isFetch] at hf
    · simp only [List.getElem?_cons_succ] at h
      obtain ⟨j, hj, hc⟩ := ih i e h hf
      exact ⟨j + 5, by omega, by simpa using hc⟩

/-- Every sleep lasts 2000 ms and is followed at once by a call of `getData`. -/
theorem mainLoop_sleep_before_fetch (env : Env) (fs : FS) (dates : List Time) :
    ∀ i ms, (mainLoop env fs dates).trace[i]? = some (Event.sleep ms) →
      ms = 2000 ∧ ∃ e, (mainLoop env fs dates).trace[i + 1]? = some e ∧ isFetch e = true := by
  refine mainLoop_induct env
    (fun _ _ r => ∀ i ms, r.trace[i]? = some (Event.sleep ms) →
      ms = 2000 ∧ ∃ e, r.trace[i + 1]? = some e ∧ isFetch e = true) ?_ ?_ ?_ ?_ ?_ ?_ fs dates
  · intro fs i ms h; simp at h
  · intro fs d rest e' _ i ms h
    rcases i with _ | i <;> simp at h
  · intro pwd fs d rest _ _ ih i ms h
    rcases i with _ | i
    · simp at h
    · simp only [List.getElem?_cons_succ] at h
      obtain ⟨h1, e, h2, h3⟩ := ih i ms h
      exact ⟨h1, e, by simpa using h2, h3⟩
  · intro pwd fs d rest e' _ _ _ i ms h
    rcases i with _ | _ | _ | i <;> simp [fetchOf] at h
    exact ⟨h.symm, fetchOf d, rfl, rfl⟩
  · intro pwd fs d rest dataset e' _ _ _ _ i ms h
    rcases i with _ | _ | _ | i <;> simp [fetchOf] at h
    exact ⟨h.symm, fetchOf d, rfl, rfl⟩
  · intro pwd fs d rest dataset _ _ _ _ ih i ms h
    rcases i with _ | _ | _ | _ | _ | i
    · simp at h
      exact ⟨h.symm, fetchOf d, rfl, rfl⟩
    · simp [fetchOf] at h
    · simp at h
    · simp at h
    · simp at h
    · simp only [List.getElem?_cons_succ] at h
      obtain ⟨h1, e, h2, h3⟩ := ih i ms h
      exact ⟨h1, e, by simpa using h2, h3⟩

/-- As many sleeps as calls of `getData`; each sleep counts towards the time
before the last call. -/
theorem mainLoop_sleep_totals (env : Env) (fs : FS) (dates : List Time) :
    sleepCount (mainLoop env fs dates).trace = fetchCount (mainLoop env fs dates).trace ∧
    sleepBeforeLastFetch (mainLoop env fs dates).trace =
      fetchCount (mainLoop env fs dates).trace * 2000 ∧
    sleepBetweenFetches (mainLoop env fs dates).trace =
      (fetchCount (mainLoop env fs dates).trace - 1) * 2000 := by
  refine mainLoop_induct env
    (fun _ _ r => sleepCount r.trace = fetchCount r.trace ∧
      sleepBeforeLastFetch r.trace = fetchCount r.trace * 2000 ∧
      sleepBetweenFetches r.trace = (fetchCount r.trace - 1) * 2000) ?_ ?_ ?_ ?_ ?_ ?_ fs dates
  · intro fs; simp [sleepCount, fetchCount, sleepBeforeLastFetch, sleepBetweenFetches]
  · intro fs d rest e _
    simp [sleepCount, fetchCount, sleepBeforeLastFetch, sleepBetweenFetches, isFetch, isSleep,
      sleepMs]
  · intro pwd fs d rest _ _ ih
    obtain ⟨h1, h2, h3⟩ := ih
    simp only [sleepCount, fetchCount] at h1 h2 h3 ⊢
    simp [sleepBeforeLastFetch, sleepBetweenFetches, isFetch, isSleep, sleepMs, h1, h2, h3]
  · intro pwd fs d rest e _ _ _
    simp [sleepCount, fetchCount, sleepBeforeLastFetch, sleepBetweenFetches, isFetch, isSleep,
      sleepMs, fetchOf]
  · intro pwd fs d rest dataset e _ _ _ _
    simp [sleepCount, fetchCount, sleepBeforeLastFetch, sleepBetweenFetches, isFetch, isSleep,
      sleepMs, fetchOf]
  · intro pwd fs d rest dataset _ _ _ _ ih
    obtain ⟨h1, h2, h3⟩ := ih
    simp only [sleepCount, fetchCount] at h1 h2 h3 ⊢
    simp [sleepBeforeLastFetch, sleepBetweenFetches, isFetch, isSleep, sleepMs, fetchOf, h1, h2,
      List.countP_cons]
    omega

/-! ## The CSV writer and the reader are inverse -/

theorem foldl_bare (cs : List Char) (rows : List (List String)) (fields : List String)
    (cur : List Char) (h : ∀ c ∈ cs, c ≠ ',' ∧ c ≠ '\n' ∧ c ≠ '"') :
    cs.foldl Reader.step ⟨rows, fields, cur, ReadMode.bare⟩ =
      ⟨rows, fields, cur ++ cs, ReadMode.bare⟩ := by
  induction cs generalizing cur with
  | nil => simp
  | cons c cs ih =>
    obtain ⟨h1, h2, h3⟩ := h c (List.mem_cons_self _ _)
    rw [List.foldl_cons]
    have hstep : Reader.step ⟨rows, fields, cur, ReadMode.bare⟩ c =
        ⟨rows, fields, cur ++ [c], ReadMode.bare⟩ := by
      simp [Reader.step, h1, h2, h3]
    rw [hstep, ih _ (fun x hx => h x (List.mem_cons_of_mem _ hx))]
    simp

theorem foldl_quoteBody (cs : List Char) (rows : List (List String)) (fields : List String)
    (cur : List Char) :
    (quoteBody cs).foldl Reader.step ⟨rows, fields, cur, ReadMode.quoted⟩ =
      ⟨rows, fields, cur ++ cs, ReadMode.quoted⟩ := by
  induction cs generalizing cur with
  | nil => simp [quoteBody]
  | cons c cs ih =>
    by_cases hc : c = '"'
    · subst hc
      have hstep : Reader.step (Reader.step ⟨rows, fields, cur, ReadMode.quoted⟩ '"') '"' =
          ⟨rows, fields, cur ++ ['"'], ReadMode.quoted⟩ := by
        simp [Reader.step]
      simp only [quoteBody, if_true, List.foldl_cons]
      rw [hstep, ih]
      simp
    · have hstep : Reader.step ⟨rows, fields, cur, ReadMode.quoted⟩ c =
          ⟨rows, fields, cur ++ [c], ReadMode.quoted⟩ := by
        simp [Reader.step, hc]
      simp only [quoteBody, hc, if_false, List.foldl_cons]
      rw [hstep, ih]
      simp

theorem fieldNeedsQuotes_false (c : Char) (cs : List Char)
    (h : fieldNeedsQuotes (c :: cs) = false) :
    ∀ x ∈ c :: cs, x ≠ ',' ∧ x ≠ '\n' ∧ x ≠ '"' := by
  intro x hx
  simp only [fieldNeedsQuotes, Bool.or_eq_false_iff, List.any_eq_false] at h
  have := h.1.2 x hx
  simp only [Bool.or_eq_true, beq_iff_eq, not_or] at this
  exact ⟨this.2, this.1.1.1, this.1.2⟩

theorem foldl_writeField (f : List Char) (rows : List (List String)) (fields : List String) :
    ∃ m, ReadMode.fieldEnd m f ∧
      (writeField f).foldl Reader.step ⟨rows, fields, [], ReadMode.fieldStart⟩ =
        ⟨rows, fields, f, m⟩ := by
  unfold writeField
  cases hq : fieldNeedsQuotes f with
  | true =>
    refine ⟨ReadMode.quoteSeen, Or.inr (Or.inl rfl), ?_⟩
    have h0 : Reader.step ⟨rows, fields, [], ReadMode.fieldStart⟩ '"' =
        ⟨rows, fields, [], ReadMode.quoted⟩ := by simp [Reader.step]
    simp only [if_true, List.foldl_cons, List.foldl_append, h0, foldl_quoteBody,
      List.nil_append, List.foldl_nil]
    simp [Reader.step]
  | false =>
    simp only [Bool.false_eq_true, if_false]
    cases f with
    | nil => exact ⟨ReadMode.fieldStart, Or.inr (Or.inr ⟨rfl, rfl⟩), rfl⟩
    | cons c cs =>
      refine ⟨ReadMode.bare, Or.inl rfl, ?_⟩
      have hall := fieldNeedsQuotes_false c cs hq
      obtain ⟨h1, h2, h3⟩ := hall c (List.mem_cons_self _ _)
      have h0 : Reader.step ⟨rows, fields, [], ReadMode.fieldStart⟩ c =
          ⟨rows, fields, [c], ReadMode.bare⟩ := by simp [Reader.step, h1, h2, h3]
      rw [List.foldl_cons, h0, foldl_bare cs rows fields [c]
        (fun x hx => hall x (List.mem_cons_of_mem _ hx))]
      simp

theorem step_comma (rows : List (List String)) (fields : List String) (f : List Char)
    (m : ReadMode) (hm : ReadMode.fieldEnd m f) :
    Reader.step ⟨rows, fields, f, m⟩ ',' =
      ⟨rows, fields ++ [String.mk f], [], ReadMode.fieldStart⟩ := by
  rcases hm with h | h | ⟨h, _⟩ <;> subst h <;> simp [Reader.step, Reader.endField]

theorem step_newline (rows : List (List String)) (fields : List String) (f : List Char)
    (m : ReadMode) (hm : ReadMode.fieldEnd m f) :
    Reader.step ⟨rows, fields, f, m⟩ '\n' =
      ⟨rows ++ [fields ++ [String.mk f]], [], [], ReadMode.fieldStart⟩ := by
  rcases hm with h | h | ⟨h, _⟩ <;> subst h <;> simp [Reader.step, Reader.endRecord]

theorem foldl_csvWrite (record : List String) (hne : record ≠ []) (rows : List (List String))
    (acc : List String) :
    (csvWrite record).foldl Reader.step ⟨rows, acc, [], ReadMode.fieldStart⟩ =
      ⟨rows ++ [acc ++ record], [], [], ReadMode.fieldStart⟩ := by
  unfold csvWrite
  induction record generalizing acc with
  | nil => exact absurd rfl hne
  | cons f fs ih =>
    cases fs with
    | nil =>
      obtain ⟨m, hm, hf⟩ := foldl_writeField f.data rows acc
      simp only [writeFields, List.foldl_append, hf, List.foldl_cons, List.foldl_nil,
        step_newline rows acc f.data m hm]
    | cons g gs =>
      obtain ⟨m, hm, hf⟩ := foldl_writeField f.data rows acc
      have := ih (List.cons_ne_nil g gs) (acc ++ [f])
      simp only [List.foldl_append] at this
      simp only [writeFields, List.foldl_append, hf, List.foldl_cons,
        step_comma rows acc f.data m hm, this]
      simp

theorem foldl_csvRows (rs : List (List String)) (h : ∀ r ∈ rs, r ≠ [])
    (done : List (List String)) :
    ((rs.map csvWrite).flatten).foldl Reader.step ⟨done, [], [], ReadMode.fieldStart⟩ =
      ⟨done ++ rs, [], [], ReadMode.fieldStart⟩ := by
  induction rs generalizing done with
  | nil => simp
  | cons r rs ih =>
    simp only [List.map_cons, List.flatten_cons, List.foldl_append]
    rw [foldl_csvWrite r (h r (List.mem_cons_self _ _)) done [],
      ih (fun x hx => h x (List.mem_cons_of_mem _ hx))]
    simp

/-- Reading what the writer wrote gives back the rows, whatever their text. -/
theorem csvRead_csvWrite (rs : List (List String)) (h : ∀ r ∈ rs, r ≠ []) :
    csvRead ((rs.map csvWrite).flatten) = some rs := by
  unfold csvRead
  simp only [foldl_csvRows rs h []]
  simp

/-! ## UTF-8 decoding undoes encoding -/

theorem utf8Decode_cons (b0 : Nat) (rest : List Nat) :
    utf8Decode (b0 :: rest) =
    if b0 < 0x80 then (utf8Decode rest).map (fun cs => Char.ofNat b0 :: cs)
    else if 0xC2 ≤ b0 ∧ b0 < 0xE0 then
      match rest with
      | b1 :: rest1 =>
        if isCont b1 then
          (utf8Decode rest1).map (fun cs => Char.ofNat ((b0 - 0xC0) * 64 + (b1 - 0x80)) :: cs)
        else none
      | _ => none
    else if 0xE0 ≤ b0 ∧ b0 < 0xF0 then
      match rest with
      | b1 :: b2 :: rest2 =>
        let v := (b0 - 0xE0) * 4096 + (b1 - 0x80) * 64 + (b2 - 0x80)
        if isCont b1 ∧ isCont b2 ∧ 0x800 ≤ v ∧ ¬(0xD800 ≤ v ∧ v ≤ 0xDFFF) then
          (utf8Decode rest2).map (fun cs => Char.ofNat v :: cs)
        else none
      | _ => none
    else if 0xF0 ≤ b0 ∧ b0 < 0xF5 then
      match rest with
      | b1 :: b2 :: b3 :: rest3 =>
        let v := (b0 - 0xF0) * 262144 + (b1 - 0x80) * 4096 + (b2 - 0x80) * 64 + (b3 - 0x80)
        if isCont b1 ∧ isCont b2 ∧ isCont b3 ∧ 0x10000 ≤ v ∧ v ≤ 0x10FFFF then
          (utf8Decode rest3).map (fun cs => Char.ofNat v :: cs)
        else none
      | _ => none
    else none := by
  rcases rest with _ | ⟨b1, _ | ⟨b2, _ | ⟨b3, r⟩⟩⟩ <;> rfl

theorem char_toNat_valid (c : Char) :
    c.toNat < 0xD800 ∨ (0xDFFF < c.toNat ∧ c.toNat < 0x110000) := c.valid

theorem utf8Decode_encodeChar (c : Char) (bs : List Nat) :
    utf8Decode (utf8EncodeChar c ++ bs) = (utf8Decode bs).map (fun cs => c :: cs) := by
  have hv := char_toNat_valid c
  unfold utf8EncodeChar
  dsimp only
  by_cases h1 : c.toNat < 0x80
  · rw [if_pos h1, List.singleton_append, utf8Decode_cons, if_pos h1, Char.ofNat_toNat]
  · rw [if_neg h1]
    by_cases h2 : c.toNat < 0x800
    · rw [if_pos h2]
      have e : (0xC0 + c.toNat / 64 - 0xC0) * 64 + (0x80 + c.toNat % 64 - 0x80) = c.toNat := by
        omega
      simp only [List.cons_append, List.nil_append]
      rw [utf8Decode_cons, if_neg (by omega), if_pos (by omega)]
      simp only [isCont, e, Char.ofNat_toNat]
      rw [if_pos (by simp; omega)]
    · rw [if_neg h2]
      by_cases h3 : c.toNat < 0x10000
      · rw [if_pos h3]
        have e : (0xE0 + c.toNat / 4096 - 0xE0) * 4096 + (0x80 + c.toNat / 64 % 64 - 0x80) * 64 +
            (0x80 + c.toNat % 64 - 0x80) = c.toNat := by omega
        simp only [List.cons_append, List.nil_append]
        rw [utf8Decode_cons, if_neg (by omega), if_neg (by omega), if_pos (by omega)]
        simp only [isCont, e, Char.ofNat_toNat]
        rw [if_pos (by simp; omega)]
      · rw [if_neg h3]
        have e : (0xF0 + c.toNat / 262144 - 0xF0) * 262144 +
            (0x80 + c.toNat / 4096 % 64 - 0x80) * 4096 +
            (0x80 + c.toNat / 64 % 64 - 0x80) * 64 + (0x80 + c.toNat % 64 - 0x80) = c.toNat := by
          omega
        simp only [List.cons_append, List.nil_append]
        rw [utf8Decode_cons, if_neg (by omega), if_neg (by omega), if_neg (by omega),
          if_pos (by omega)]
        simp only [isCont, e, Char.ofNat_toNat]
        rw [if_pos (by simp; omega)]

/-- The bytes of a text decode to that text. -/
theorem utf8Decode_utf8Encode (text : List Char) : utf8Decode (utf8Encode text) = some text := by
  induction text with
  | nil => rfl
  | cons c cs ih =>
    have : utf8Encode (c :: cs) = utf8EncodeChar c ++ utf8Encode cs := by
      simp [utf8Encode]
    rw [this, utf8Decode_encodeChar, ih]
    rfl

/-- An export whose file can be created returns normally with the file
written. -/
theorem saveDatasetAsCsv_ok (env : Env) (fs : FS) (dataset : List Data) (p : String)
    (hc : env.createErr p = none) (hnd : fs p ≠ some Node.dir) :
    saveDatasetAsCsv env fs dataset p =
      (fs.set p (Node.file (writtenBytes env dataset p)),
        [Event.create p, Event.write p (writtenBytes env dataset p)], .ok ()) := by
  unfold saveDatasetAsCsv osCreate
  simp only [hc]
  cases h : fs p with
  | none => simp [FS.set_set]
  | some n =>
    cases n with
    | dir => exact absurd h hnd
    | file _ => simp [FS.set_set]

/-- C3: row fidelity of `saveDatasetAsCsv`.  For every dataset, whatever the
text of its fields, reading the CSV text of the export gives back exactly the
rows handed to the writer; these are `N + 1` rows, the first is the fixed
header of 8 columns, and row `i + 1` holds the 8 fields Company, N225Sell,
N225Buy, N225Net, TopixSell, TopixBuy, TopixNet, NetTotal of record `i`
(InfoDate is left out).  On a platform other than windows, when neither the
creation nor the writing fails, the file holds bytes that decode (UTF-8) and
read back to these rows. -/
theorem row_fidelity (dataset : List Data) :
    csvRead (csvText dataset) = some (csvRows dataset) ∧
    (csvRows dataset).length = dataset.length + 1 ∧
    (csvRows dataset)[0]? =
      some ["証券会社名", "n225_sell", "n225_buy", "n225_net", "topix_sell", "topix_buy",
        "topix_net", "net_total"] ∧
    (∀ i data, dataset[i]? = some data →
      (csvRows dataset)[i + 1]? =
        some [data.Company, data.N225Sell, data.N225Buy, data.N225Net, data.TopixSell,
          data.TopixBuy, data.TopixNet, data.NetTotal]) ∧
    (∀ (env : Env) (fs : FS) (filePath : String), env.goos ≠ "windows" →
      env.createErr filePath = none → env.writeErr filePath = none →
      fs filePath ≠ some Node.dir →
      ∃ bytes, (saveDatasetAsCsv env fs dataset filePath).1 filePath = some (Node.file bytes) ∧
        (utf8Decode bytes).bind csvRead = some (csvRows dataset)) := by
  have hread : csvRead (csvText dataset) = some (csvRows dataset) := by
    unfold csvText
    apply csvRead_csvWrite
    intro r hr
    simp only [csvRows, List.mem_cons, List.mem_map] at hr
    rcases hr with h | ⟨data, _, h⟩
    · subst h; simp [header]
    · subst h; simp [recordOf]
  refine ⟨hread, by simp [csvRows], by simp [csvRows, header], ?_, ?_⟩
  · intro i data hi
    simp [csvRows, hi, recordOf]
  · intro env fs filePath hos hc hw hnd
    refine ⟨utf8Encode (csvText dataset), ?_, ?_⟩
    · rw [saveDatasetAsCsv_ok env fs dataset filePath hc hnd]
      simp [FS.set, writtenBytes, hw, outputStream, hos]
    · rw [utf8Decode_utf8Encode]
      exact hread

/-- Witness of C3: a record with commas, quotes and line breaks reads back
from the text and from the file. -/
theorem row_fidelity_witness :
    csvRead (csvText [trickyData]) =
      some [header, ["A, \"B\" 社", "1\n2", "", "\"", ",", "\\.", " x", "\r\n"]] ∧
    ∃ bytes,
      (saveDatasetAsCsv demoEnv demoFS [trickyData] "/w/data/2021-05-04.csv").1
        "/w/data/2021-05-04.csv" = some (Node.file bytes) ∧
      (utf8Decode bytes).bind csvRead = some (csvRows [trickyData]) :=
  ⟨(row_fidelity [trickyData]).1,
    (row_fidelity [trickyData]).2.2.2.2 demoEnv demoFS "/w/data/2021-05-04.csv" (by decide) rfl
      rfl (by decide)⟩

/-- C5: the politeness delay applies per fetched date.  In the trace of every
run each call of `getData` comes right after a sleep of 2000 ms, each sleep
lasts 2000 ms and is followed at once by a call of `getData` (so a skipped
date causes no sleep), there are as many sleeps as calls, and when the run
makes `K ≥ 2` calls the sleeps between the first and the last call add up to
at least `(K - 1) * 2000` ms. -/
theorem throttle_per_fetch (env : Env) (fs : FS) (dates : List Time) :
    (∀ i e, (mainLoop env fs dates).trace[i]? = some e → isFetch e = true →
      ∃ j, i = j + 1 ∧ (mainLoop env fs dates).trace[j]? = some (Event.sleep 2000)) ∧
    (∀ i ms, (mainLoop env fs dates).trace[i]? = some (Event.sleep ms) →
      ms = 2000 ∧
        ∃ e, (mainLoop env fs dates).trace[i + 1]? = some e ∧ isFetch e = true) ∧
    sleepCount (mainLoop env fs dates).trace = fetchCount (mainLoop env fs dates).trace ∧
    (∀ K, 2 ≤ K → fetchCount (mainLoop env fs dates).trace = K →
      (K - 1) * 2000 ≤ sleepBetweenFetches (mainLoop env fs dates).trace) := by
  refine ⟨mainLoop_fetch_after_sleep env fs dates, mainLoop_sleep_before_fetch env fs dates,
    (mainLoop_sleep_totals env fs dates).1, ?_⟩
  intro K _ hK
  rw [(mainLoop_sleep_totals env fs dates).2.2, hK]

/-- Witness of C5: a run that fetches two dates and skips one sleeps 2000 ms
between its two calls. -/
theorem throttle_per_fetch_witness :
    fetchCount (mainLoop demoEnv demoFS [⟨2021, 5, 4⟩, ⟨2021, 5, 3⟩, ⟨2021, 5, 5⟩]).trace = 2 ∧
    (2 - 1) * 2000 ≤
      sleepBetweenFetches
        (mainLoop demoEnv demoFS [⟨2021, 5, 4⟩, ⟨2021, 5, 3⟩, ⟨2021, 5, 5⟩]).trace :=
  ⟨by decide,
    (throttle_per_fetch demoEnv demoFS [⟨2021, 5, 4⟩, ⟨2021, 5, 3⟩, ⟨2021, 5, 5⟩]).2.2.2 2
      (by decide) (by decide)⟩

/-- Witness of C4: the archive file of 2021-05-03, present before the run of
`demoEnv`, is what it was after the run. -/
theorem existing_entries_never_overwritten_witness :
    isFileExist demoFS "/w/data/2021-05-03.csv" = true ∧
    (mainLoop demoEnv demoFS demoDates).fs "/w/data/2021-05-03.csv" =
      demoFS "/w/data/2021-05-03.csv" :=
  ⟨by decide,
    (existing_entries_never_overwritten demoEnv demoFS demoDates).2.2.2.1
      "/w/data/2021-05-03.csv" (by decide)⟩

/-- C8 (defect): a write failure is not fatal.  With a device that accepts no
byte, the export of 2021-05-04 returns normally: the run is not stopped, it
reports the file as saved, and the file is left empty. -/
theorem write_failure_not_fatal :
    (saveDatasetAsCsv fullDiskEnv demoFS [trickyData] "/w/data/2021-05-04.csv").2.2 = .ok () ∧
    (mainLoop fullDiskEnv demoFS [⟨2021, 5, 4⟩]).err = none ∧
    (mainLoop fullDiskEnv demoFS [⟨2021, 5, 4⟩]).trace.getLast? =
      some (Event.println "2021-05-04.csv saved.") ∧
    (mainLoop fullDiskEnv demoFS [⟨2021, 5, 4⟩]).fs "/w/data/2021-05-04.csv" =
      some (Node.file []) := by
  refine ⟨rfl, by decide, by decide, by decide⟩

/-- C9 (counterexample): a listing page without any option, or with options
that carry no date, does not stop anything: `getDates` returns normally, with
the empty sequence or with the zero time for each such option, and the run
over the page without options ends without error. -/
theorem getDates_accepts_bad_markup :
    getDates noOptionEnv = .ok [] ∧
    (main noOptionEnv demoFS).err = none ∧
    getDates badOptionEnv = .ok [Time.zero, Time.zero] := by
  refine ⟨rfl, by decide, rfl⟩

/-- C9 (amended): `getDates` stops the run exactly when the listing page
cannot be loaded; for a page that loads it returns one date per matched
option, in page order: the parsed date, or the zero time when the value is
missing or is not a date. -/
theorem getDates_aborts_only_on_load_failure (env : Env) :
    (∀ e, getDates env = .error e ↔
      env.listing "http://j2funds.info/invest/contents/futures/daily.php" = .error e) ∧
    (∀ options,
      env.listing "http://j2funds.info/invest/contents/futures/daily.php" = .ok options →
      getDates env = .ok (options.map fun o =>
        match o with
        | none => Time.zero
        | some s =>
          match timeParse s with
          | .ok date => date
          | .error _ => Time.zero)) := by
  constructor
  · intro e
    unfold getDates
    dsimp only
    cases h : env.listing "http://j2funds.info/invest/contents/futures/daily.php" with
    | error e' => simp
    | ok options => simp
  · intro options h
    unfold getDates
    dsimp only
    rw [h]
    simp only [Except.ok.injEq]
    apply List.map_congr_left
    intro o _
    cases o with
    | none => rfl
    | some s => rfl

/-- Witness of C9 (amended) on the page of `badOptionEnv`. -/
theorem getDates_aborts_only_on_load_failure_witness :
    getDates badOptionEnv = .ok ([none, some "latest"].map fun o =>
      match o with
      | none => Time.zero
      | some s =>
        match timeParse s with
        | .ok date => date
        | .error _ => Time.zero) :=
  (getDates_aborts_only_on_load_failure badOptionEnv).2 [none, some "latest"] rfl

/-! ## Encoding of the output stream -/

theorem shiftJISEncode_append (table : Char → Option (List Nat)) (a b : List Char)
    (code : List Nat) (h : shiftJISCodes table a = some code) :
    shiftJISEncode table (a ++ b) = code ++ shiftJISEncode table b := by
  induction a generalizing code with
  | nil =>
    simp only [shiftJISCodes, Option.some.injEq] at h
    subst h
    rfl
  | cons c cs ih =>
    rw [shiftJISCodes] at h
    cases hc : table c with
    | none => simp [hc] at h
    | some x =>
      cases hr : shiftJISCodes table cs with
      | none => simp [hc, hr] at h
      | some rest =>
        simp only [hc, hr, Option.some.injEq] at h
        subst h
        simp only [List.cons_append, shiftJISEncode, hc, List.append_eq, ih rest hr,
          List.append_assoc]

theorem shiftJISEncode_codes (table : Char → Option (List Nat)) (a : List Char)
    (code : List Nat) (h : shiftJISCodes table a = some code) :
    shiftJISEncode table a = code := by
  have := shiftJISEncode_append table a [] code h
  simpa [shiftJISEncode] using this

theorem csvText_header (dataset : List Data) :
    csvText dataset =
      "証券会社名".data ++
        (",n225_sell,n225_buy,n225_net,topix_sell,topix_buy,topix_net,net_total\n".data ++
          ((dataset.map recordOf).map csvWrite).flatten) := by
  have h : csvWrite header =
      "証券会社名".data ++
        ",n225_sell,n225_buy,n225_net,topix_sell,topix_buy,topix_net,net_total\n".data := by
    decide
  simp only [csvText, csvRows, List.map_cons, List.flatten_cons, h, List.append_assoc]

/-- C10: encoding selection.  When the file can be created and the device
takes every byte, the platform alone decides the encoding of the whole stream.
On windows the file holds the Shift-JIS transcoding of the CSV text whenever
the text has one, and in any case it starts with the Shift-JIS code of the
Japanese header column instead of its UTF-8 bytes; on every other platform
the file holds exactly the UTF-8 bytes of the CSV text, which decode to it. -/
theorem encoding_selection (env : Env) (fs : FS) (dataset : List Data) (filePath : String)
    (hcreate : env.createErr filePath = none) (hnodir : fs filePath ≠ some Node.dir)
    (hwrite : env.writeErr filePath = none) :
    (env.goos = "windows" →
      (∀ bytes, shiftJISCodes env.shiftJIS (csvText dataset) = some bytes →
        (saveDatasetAsCsv env fs dataset filePath).1 filePath = some (Node.file bytes)) ∧
      (∀ code, shiftJISCodes env.shiftJIS "証券会社名".data = some code →
        ∃ rest, (saveDatasetAsCsv env fs dataset filePath).1 filePath =
          some (Node.file (code ++ rest)))) ∧
    (env.goos ≠ "windows" →
      (saveDatasetAsCsv env fs dataset filePath).1 filePath =
        some (Node.file (utf8Encode (csvText dataset))) ∧
      utf8Decode (utf8Encode (csvText dataset)) = some (csvText dataset)) := by
  rw [saveDatasetAsCsv_ok env fs dataset filePath hcreate hnodir]
  have hfile : (fs.set filePath (Node.file (writtenBytes env dataset filePath))) filePath =
      some (Node.file (outputStream env dataset)) := by
    simp [FS.set, writtenBytes, hwrite]
  dsimp only
  rw [hfile]
  constructor
  · intro hos
    have hstream : outputStream env dataset = shiftJISEncode env.shiftJIS (csvText dataset) := by
      simp [outputStream, hos]
    rw [hstream]
    constructor
    · intro bytes hb
      rw [shiftJISEncode_codes _ _ _ hb]
    · intro code hcodes
      rw [csvText_header, shiftJISEncode_append _ _ _ _ hcodes]
      exact ⟨_, rfl⟩
  · intro hos
    have hstream : outputStream env dataset = utf8Encode (csvText dataset) := by
      simp [outputStream, hos]
    rw [hstream]
    exact ⟨rfl, utf8Decode_utf8Encode _⟩

/-- Witness of C10: the export of the empty dataset is the header line, in
Shift-JIS on windows and in UTF-8 elsewhere. -/
theorem encoding_selection_witness :
    (saveDatasetAsCsv windowsEnv demoFS [] "/w/data/2021-05-04.csv").1
        "/w/data/2021-05-04.csv" = some (Node.file headerShiftJIS) ∧
    (saveDatasetAsCsv demoEnv demoFS [] "/w/data/2021-05-04.csv").1
        "/w/data/2021-05-04.csv" = some (Node.file headerUTF8) :=
  ⟨((encoding_selection windowsEnv demoFS [] "/w/data/2021-05-04.csv" rfl (by decide) rfl).1
      rfl).1 headerShiftJIS (by decide),
    ((encoding_selection demoEnv demoFS [] "/w/data/2021-05-04.csv" rfl (by decide) rfl).2
      (by decide)).1.trans (by decide)⟩

end Sakimono
